import Mathlib

/-!
Verification of the pg-machinomy payment-channel core.

This file is a shallow embedding, in Lean 4, of the SQL core of the
pg-machinomy repository (`pg-machinomy.sql`): the channel reducer
(`mcy_channel_apply_event`, `mcy_get_channel`), the event enumeration and
ordering (`mcy_get_channel_events`), the intent-correlation engine
(`mcy_get_intent_block_hash` and its trigger), the reorg processor
(`mcy_set_recent_blocks`), state-update admission (`mcy_insert_state_update`
and friends), and the big-endian byte packers.

Modelling conventions:
* SQL `NULL` is `Option.none`; composite records that may be `NULL` as a
  whole are wrapped in `Option`.
* Timestamps and block numbers are `Int`; wei amounts are `Int`
  (`numeric(1000)` carries no non-negativity constraint of its own).
* The `jsonb` event payload is modelled as a record of the typed fields the
  broker-contract events carry; record equality models `jsonb` deep equality
  as used by the intent-correlation engine.
* Tables are lists of rows in insertion order; `bigserial` ids come from
  per-table counters in the `DB` state.  `now()` is a logical clock.
* A raised-and-propagated SQL exception (aborting the transaction) is the
  `Except.error` case; the database is unchanged in that case.
* The `ecdsa_verify` capability (extension `pguecc`) is an injected
  parameter, as in the tests which stub it out.
-/

namespace PGMachinomy

set_option maxRecDepth 8000

instance {ε α : Type} [DecidableEq ε] [DecidableEq α] : DecidableEq (Except ε α) := fun a b =>
  match a, b with
  | .error x, .error y => decidable_of_iff (x = y) (by simp)
  | .error _, .ok _ => .isFalse (by simp)
  | .ok _, .error _ => .isFalse (by simp)
  | .ok x, .ok y => decidable_of_iff (x = y) (by simp)

/-- `mcy_channel_event_type` enum from the schema. -/
inductive McyChannelEventType
  | DidCreateChannel
  | DidDeposit
  | DidStartSettle
  | DidSettle
deriving DecidableEq, Repr

/-- `mcy_channel_state` enum from the schema. -/
inductive McyChannelState
  | CS_OPEN
  | CS_SETTLING
  | CS_SETTLED
deriving DecidableEq, Repr

/-- The `::text` rendering of `mcy_channel_state`, as used in error messages. -/
def McyChannelState.toText : McyChannelState → String
  | .CS_OPEN => "CS_OPEN"
  | .CS_SETTLING => "CS_SETTLING"
  | .CS_SETTLED => "CS_SETTLED"

/-- The `::text` rendering of `mcy_channel_event_type`. -/
def McyChannelEventType.toText : McyChannelEventType → String
  | .DidCreateChannel => "DidCreateChannel"
  | .DidDeposit => "DidDeposit"
  | .DidStartSettle => "DidStartSettle"
  | .DidSettle => "DidSettle"

/-- The typed content of the `fields jsonb` payload of a channel event, as
read by the reducer (`mcy_not_null` / `mcy_wei_from_js` accessors).  Record
equality models `jsonb` deep equality (`ce.fields = intent.fields`). -/
structure EventFields where
  sender : String
  receiver : String
  settlement_period : Int
  «until» : Int
  value : Int
  payment : Int
  odd_value : Int
deriving DecidableEq, Repr

/-- A row of `channel_events` (and, with `block_hash = none` and
`block_is_valid = none`, of `channel_intents`, which has the same shape; the
set-returning union in `mcy_get_channel_events` uses the common shape). -/
structure ChannelEventRow where
  id : Nat
  chain_id : Int
  contract_id : String
  channel_id : String
  ts : Int
  block_number : Int
  block_hash : Option String
  block_is_valid : Option Bool
  sender : String
  event_type : McyChannelEventType
  fields : EventFields
deriving DecidableEq, Repr

/-- The `mcy_channel` composite type: a purely aggregate channel record.
Every attribute starts out SQL `NULL`. -/
structure McyChannel where
  chain_id : Option Int := none
  contract_id : Option String := none
  channel_id : Option String := none
  last_state_id : Option Nat := none
  last_event_id : Option Nat := none
  sender : Option String := none
  receiver : Option String := none
  value : Option Int := none
  settlement_period : Option Int := none
  «until» : Option Int := none
  payment : Option Int := none
  odd_value : Option Int := none
  state : Option McyChannelState := none
  state_is_intent : Option Bool := none
  opened_on : Option Int := none
  settlement_started_on : Option Int := none
  settlement_finalized_on : Option Int := none
deriving DecidableEq, Repr

/-- `mcy_assert_channel_state(event_type, channel, a, b default null)`:
returns `NULL` when the channel's state is `a` (or `b`), otherwise the
developer-friendly error message. -/
def mcy_assert_channel_state (event_type : String) (channel : McyChannel)
    (a : Option String) (b : Option String := none) : Option String :=
  let chan_state : String := (channel.state.map McyChannelState.toText).getD "NULL"
  let a := a.getD "NULL"
  if chan_state = a ∨ some chan_state = b then
    none
  else
    some ("invalid channel state for event " ++ event_type ++ ": got " ++ chan_state ++
      " but should be " ++ (match b with | none => a | some b => a ++ " or " ++ b))

/-- Result record of `mcy_channel_apply_event`
(`out new_channel, out is_invalid, out is_invalid_reason`). -/
structure ApplyEventResult where
  new_channel : McyChannel
  is_invalid : Bool
  is_invalid_reason : Option String
deriving DecidableEq, Repr

/-- `mcy_channel_apply_event(channel, event)`: the reduction step.  A `NULL`
input channel is seeded with the event's channel key; then the event-type
branch checks the state precondition and applies the field mutations (the
mutations are computed unconditionally; `mcy_get_channel` discards them when
`is_invalid`). -/
def mcy_channel_apply_event (channel? : Option McyChannel) (event : ChannelEventRow) :
    ApplyEventResult :=
  let channel : McyChannel :=
    match channel? with
    | none =>
        { chain_id := some event.chain_id
          contract_id := some event.contract_id
          channel_id := some event.channel_id
          last_event_id := some event.id }
    | some c => c
  let fields := event.fields
  let step : McyChannel × Option String :=
    match event.event_type with
    | .DidCreateChannel =>
        ({ channel with
            state := some .CS_OPEN
            opened_on := some event.ts
            sender := some fields.sender
            receiver := some fields.receiver
            settlement_period := some fields.settlement_period
            «until» := some fields.until
            value := some fields.value },
         mcy_assert_channel_state "DidCreateChannel" channel none)
    | .DidDeposit =>
        ({ channel with value := channel.value.map (· + fields.value) },
         mcy_assert_channel_state "DidDeposit" channel (some "CS_OPEN"))
    | .DidStartSettle =>
        ({ channel with
            state := some .CS_SETTLING
            settlement_started_on := some event.ts
            «until» := channel.settlement_period.map (fun p => event.ts + p)
            payment := some fields.payment },
         mcy_assert_channel_state "DidStartSettle" channel (some "CS_OPEN"))
    | .DidSettle =>
        ({ channel with
            state := some .CS_SETTLED
            settlement_finalized_on := some event.ts
            payment := some fields.payment
            odd_value := some fields.odd_value },
         mcy_assert_channel_state "DidSettle" channel (some "CS_OPEN") (some "CS_SETTLING"))
  let channel := { step.1 with
    state_is_intent := some ((step.1.state_is_intent.getD false) || event.block_hash.isNone) }
  { new_channel := channel
    is_invalid := step.2.isSome
    is_invalid_reason := step.2 }

/-- The `mcy_get_channel_result` composite type. -/
structure McyGetChannelResult where
  channel : Option McyChannel := none
  latest_intent_event : Option ChannelEventRow := none
  latest_chain_event : Option ChannelEventRow := none
  latest_event : Option ChannelEventRow := none
  is_invalid : Option Bool := none
  is_invalid_reason : Option String := none
deriving DecidableEq, Repr

/-- The event loop of `mcy_get_channel`: fold the events in order, tracking
the latest event per category, and stop at the first invalid event keeping
the pre-event channel snapshot. -/
def mcy_get_channel_loop : McyGetChannelResult → List ChannelEventRow → McyGetChannelResult
  | res, [] => res
  | res, event :: rest =>
    let res := { res with
      latest_event := some event
      latest_intent_event :=
        if event.block_hash.isNone then some event else res.latest_intent_event
      latest_chain_event :=
        if event.block_hash.isNone then res.latest_chain_event else some event }
    let ar := mcy_channel_apply_event res.channel event
    let res := { res with is_invalid := some ar.is_invalid, is_invalid_reason := ar.is_invalid_reason }
    if ar.is_invalid then res
    else mcy_get_channel_loop { res with channel := some ar.new_channel } rest

/-- `mcy_get_channel` on an already-enumerated event stream (the loop body of
the SQL function, starting from an all-`NULL` result record). -/
def mcy_get_channel_core (events : List ChannelEventRow) : McyGetChannelResult :=
  mcy_get_channel_loop {} events

/-! ### The canonical ordering of `mcy_get_channel_events`

`order by block_number, block_hash, ts` — all three keys ascending, and, per
the engine's default for ascending keys, `NULL` hashes sort last. -/

/-- `block_hash` as a sort key: ascending, `NULL` last. -/
def hashSortKey : Option String → Lex (Bool × String)
  | some h => toLex (false, h)
  | none => toLex (true, "")

/-- The `order by block_number, block_hash, ts` sort key of a row. -/
def ChannelEventRow.sortKey (e : ChannelEventRow) : Lex (Int × Lex (Lex (Bool × String) × Int)) :=
  toLex (e.block_number, toLex (hashSortKey e.block_hash, e.ts))

/-- The canonical row order used by `mcy_get_channel_events`. -/
def rowle (a b : ChannelEventRow) : Prop :=
  a.sortKey ≤ b.sortKey

/-- The `block_hash` key as boolean-comparable data (a `String` orders as its
`List Char`). -/
def hashKeyB : Option String → Bool × List Char
  | some h => (false, h.toList)
  | none => (true, [])

/-- Strict comparison of hash keys. -/
def pairLtB (x y : Bool × List Char) : Bool :=
  decide (x.1 < y.1) || (x.1 == y.1 && decide (x.2 < y.2))

/-- The canonical order as an executable comparison. -/
def keyLeB (a b : ChannelEventRow) : Bool :=
  decide (a.block_number < b.block_number) ||
    (a.block_number == b.block_number &&
      (pairLtB (hashKeyB a.block_hash) (hashKeyB b.block_hash) ||
        (hashKeyB a.block_hash == hashKeyB b.block_hash && decide (a.ts ≤ b.ts))))

theorem hashSortKey_lt_iff (x y : Option String) :
    hashSortKey x < hashSortKey y ↔
      ((hashKeyB x).1 < (hashKeyB y).1 ∨
        ((hashKeyB x).1 = (hashKeyB y).1 ∧ (hashKeyB x).2 < (hashKeyB y).2)) := by
  cases x <;> cases y <;>
    simp +decide [hashSortKey, hashKeyB, Prod.Lex.lt_iff, String.lt_iff_toList_lt]

theorem hashSortKey_eq_iff (x y : Option String) :
    hashSortKey x = hashSortKey y ↔ hashKeyB x = hashKeyB y := by
  cases x <;> cases y <;>
    simp +decide [hashSortKey, hashKeyB, String.toList_inj, String.ext_iff]

theorem rowle_iff (a b : ChannelEventRow) : rowle a b ↔ keyLeB a b = true := by
  unfold rowle ChannelEventRow.sortKey keyLeB pairLtB
  simp only [Prod.Lex.le_iff, hashSortKey_lt_iff, hashSortKey_eq_iff,
    Bool.or_eq_true, Bool.and_eq_true, decide_eq_true_eq, beq_iff_eq]

instance : DecidableRel rowle := fun a b =>
  decidable_of_iff (keyLeB a b = true) (rowle_iff a b).symm

instance : IsTotal ChannelEventRow rowle :=
  ⟨fun a b => le_total a.sortKey b.sortKey⟩

instance : IsTrans ChannelEventRow rowle :=
  ⟨fun _ _ _ hab hbc => le_trans hab hbc⟩

/-! ### Database state -/

/-- A row of `state_updates`. -/
structure StateUpdateRow where
  id : Nat
  chain_id : Int
  contract_id : String
  channel_id : String
  ts : Int
  amount : Int
  signature : String
deriving DecidableEq, Repr

/-- A state update as supplied on the wire (the `jsonb` argument of
`mcy_insert_state_update` / `mcy_get_state_update_status`). -/
structure StateUpdateInput where
  chain_id : Int
  contract_id : String
  channel_id : String
  ts : Int
  amount : Int
  signature : String
deriving DecidableEq, Repr

/-- The status document built by `mcy_get_state_update_status`. -/
structure StateUpdateStatus where
  signature_valid : Bool
  is_latest : Bool
  added_amount : Option Int
  dupe_status : String
deriving DecidableEq, Repr

/-- A row of the `invalid_state_updates` quarantine log. -/
structure InvalidStateUpdateRow where
  id : Nat
  inserted_on : Int
  reason : String
  status : StateUpdateStatus
  blob : StateUpdateInput
deriving DecidableEq, Repr

/-- The channel key `(chain_id, contract_id, channel_id)` extracted from a
`jsonb` argument. -/
structure ChanKey where
  chain_id : Int
  contract_id : String
  channel_id : String
deriving DecidableEq, Repr

/-- The persistent state: the three append-only logs, the quarantine log,
the `bigserial` counters, and the transaction clock. -/
structure DB where
  state_updates : List StateUpdateRow := []
  invalid_state_updates : List InvalidStateUpdateRow := []
  channel_events : List ChannelEventRow := []
  channel_intents : List ChannelEventRow := []
  next_state_update_id : Nat := 1
  next_invalid_id : Nat := 1
  next_event_id : Nat := 1
  next_intent_id : Nat := 1
  now : Int := 0
deriving DecidableEq, Repr

/-- A freshly `setup_database()`-ed store. -/
def emptyDB : DB := {}

/-- Row matches the channel key of the `chan` argument. -/
def sameChannel (chan : ChanKey) (e : ChannelEventRow) : Bool :=
  decide (e.chain_id = chan.chain_id ∧ e.contract_id = chan.contract_id ∧
    e.channel_id = chan.channel_id)

/-- `mcy_get_channel_events(chan, include_intent)`: valid chain events union
uncorrelated intents for the channel, in canonical order (the sort is the
stable insertion sort over the scan order of the two tables). -/
def mcy_get_channel_events (db : DB) (chan : ChanKey) (include_intent : Bool) :
    List ChannelEventRow :=
  List.insertionSort rowle
    ((db.channel_events.filter fun e => sameChannel chan e && (e.block_is_valid.getD false))
      ++ (db.channel_intents.filter fun i =>
            include_intent && sameChannel chan i && i.block_hash.isNone))

/-- `mcy_get_channel(chan, include_intent)`. -/
def mcy_get_channel (db : DB) (chan : ChanKey) (include_intent : Bool) :
    McyGetChannelResult :=
  mcy_get_channel_core (mcy_get_channel_events db chan include_intent)

/-- `order by amount desc limit 1` over the channel's state updates: the row
with the maximal amount (the unique index makes amount ties impossible; the
scan keeps the first such row). -/
def maxAmountRow (l : List StateUpdateRow) : Option StateUpdateRow :=
  l.foldl (fun acc r =>
    match acc with
    | none => some r
    | some a => if a.amount < r.amount then some r else acc) none

/-- State-update row matches the channel key. -/
def suSameChannel (chan : ChanKey) (r : StateUpdateRow) : Bool :=
  decide (r.chain_id = chan.chain_id ∧ r.contract_id = chan.contract_id ∧
    r.channel_id = chan.channel_id)

/-- `mcy_get_latest_state_update(chan)`. -/
def mcy_get_latest_state_update (db : DB) (chan : ChanKey) : Option StateUpdateRow :=
  maxAmountRow (db.state_updates.filter (suSameChannel chan))

/-- The channel-status document of `mcy_get_channel_status`. -/
structure ChannelStatus where
  channel : Option McyChannel
  latest_state : Option StateUpdateRow
  current_payment : Option Int
  current_remaining_balance : Option Int
  latest_event : Option ChannelEventRow
  latest_intent_event : Option ChannelEventRow
  latest_chain_event : Option ChannelEventRow
  is_invalid : Option Bool
  is_invalid_reason : Option String
deriving DecidableEq, Repr

/-- SQL addition over nullable values: `NULL` if either operand is. -/
def sqlAdd : Option Int → Option Int → Option Int
  | some a, some b => some (a + b)
  | _, _ => none

/-- SQL subtraction over nullable values. -/
def sqlSub : Option Int → Option Int → Option Int
  | some a, some b => some (a - b)
  | _, _ => none

/-- `mcy_get_channel_status(chan, include_intent)`. -/
def mcy_get_channel_status (db : DB) (chan : ChanKey) (include_intent : Bool) :
    ChannelStatus :=
  let cr := mcy_get_channel db chan include_intent
  let latest_state := mcy_get_latest_state_update db chan
  { channel := cr.channel
    latest_state := latest_state
    current_payment := latest_state.map (·.amount)
    current_remaining_balance :=
      sqlSub (cr.channel.bind (·.value)) (latest_state.map (·.amount))
    latest_event := cr.latest_event
    latest_intent_event := cr.latest_intent_event
    latest_chain_event := cr.latest_chain_event
    is_invalid := cr.is_invalid
    is_invalid_reason := cr.is_invalid_reason }

/-! ### Intent correlation -/

/-- `order by id desc limit 1`: the most recently inserted row. -/
def maxIdRow (l : List ChannelEventRow) : Option ChannelEventRow :=
  l.foldl (fun acc e =>
    match acc with
    | none => some e
    | some a => if a.id < e.id then some e else acc) none

/-- The correlation condition of `mcy_get_intent_block_hash` (without the
validity conjunct): channel key, `ce.block_number >= intent.block_number`,
sender, event type, and deep field equality.  The trigger
`mcy_update_channel_intents_trigger` uses the same condition
(`ci.block_number <= NEW.block_number` etc.). -/
def intentMatches (intent ce : ChannelEventRow) : Bool :=
  decide (ce.chain_id = intent.chain_id ∧ ce.contract_id = intent.contract_id ∧
    ce.channel_id = intent.channel_id ∧ intent.block_number ≤ ce.block_number ∧
    ce.sender = intent.sender ∧ ce.event_type = intent.event_type ∧
    ce.fields = intent.fields)

/-- `mcy_get_intent_block_hash(intent)`: the hash of the most recently
inserted valid matching chain event, else `NULL`. -/
def mcy_get_intent_block_hash (db : DB) (intent : ChannelEventRow) : Option String :=
  (maxIdRow (db.channel_events.filter fun ce =>
      intentMatches intent ce && ce.block_is_valid.getD false)).bind (·.block_hash)

/-! ### Channel-event and intent insertion -/

/-- A channel event as supplied to `mcy_insert_channel_event`. -/
structure ChannelEventInput where
  chain_id : Int
  contract_id : String
  channel_id : String
  ts : Int
  block_hash : String
  block_number : Int
  sender : String
  event_type : McyChannelEventType
  fields : EventFields
deriving DecidableEq, Repr

/-- The channel key of an event input. -/
def ChannelEventInput.key (e : ChannelEventInput) : ChanKey :=
  ⟨e.chain_id, e.contract_id, e.channel_id⟩

/-- `mcy_insert_channel_event(event)`: append the row (with
`block_is_valid = true`), fire the `INSERT` branch of
`mcy_update_channel_intents_trigger` (matching intents with
`block_number <= NEW.block_number` get the new event's hash), then return
`mcy_get_channel_status(event, true)`. -/
def mcy_insert_channel_event (event : ChannelEventInput) (db : DB) :
    DB × ChannelStatus :=
  let row : ChannelEventRow :=
    { id := db.next_event_id
      chain_id := event.chain_id
      contract_id := event.contract_id
      channel_id := event.channel_id
      ts := event.ts
      block_number := event.block_number
      block_hash := some event.block_hash
      block_is_valid := some true
      sender := event.sender
      event_type := event.event_type
      fields := event.fields }
  let intents := db.channel_intents.map fun ci =>
    if intentMatches ci row then { ci with block_hash := row.block_hash } else ci
  let db :=
    { db with
      channel_events := db.channel_events ++ [row]
      channel_intents := intents
      next_event_id := db.next_event_id + 1 }
  (db, mcy_get_channel_status db event.key true)

/-- A channel intent as supplied to `mcy_insert_channel_intent` (`ts` is the
server's `now()`, `block_hash` starts `NULL`). -/
structure ChannelIntentInput where
  chain_id : Int
  contract_id : String
  channel_id : String
  block_number : Int
  sender : String
  event_type : McyChannelEventType
  fields : EventFields
deriving DecidableEq, Repr

/-- The channel key of an intent input. -/
def ChannelIntentInput.key (i : ChannelIntentInput) : ChanKey :=
  ⟨i.chain_id, i.contract_id, i.channel_id⟩

/-- `mcy_insert_channel_intent(intent)`: append the row with `NULL` hash,
then set its hash from `mcy_get_intent_block_hash`, then return
`mcy_get_channel_status(intent, true)`. -/
def mcy_insert_channel_intent (intent : ChannelIntentInput) (db : DB) :
    DB × ChannelStatus :=
  let row : ChannelEventRow :=
    { id := db.next_intent_id
      chain_id := intent.chain_id
      contract_id := intent.contract_id
      channel_id := intent.channel_id
      ts := db.now
      block_number := intent.block_number
      block_hash := none
      block_is_valid := none
      sender := intent.sender
      event_type := intent.event_type
      fields := intent.fields }
  let row := { row with block_hash := mcy_get_intent_block_hash db row }
  let db :=
    { db with
      channel_intents := db.channel_intents ++ [row]
      next_intent_id := db.next_intent_id + 1
      now := db.now + 1 }
  (db, mcy_get_channel_status db intent.key true)

/-! ### Reorg processor -/

/-- Rows the `update` statement of `mcy_set_recent_blocks` ranges over:
`chain_id = chain_id_ and block_hash is not null and
block_number >= first_block_num`. -/
def reorgTouched (chain_id_ first_block_num : Int) (e : ChannelEventRow) : Bool :=
  decide (e.chain_id = chain_id_ ∧ e.block_hash.isSome = true ∧
    first_block_num ≤ e.block_number)

/-- `new_is_valid` for a touched row: its hash equals
`coalesce(block_hashes[block_number - first_block_num + 1], '<invalid>')`. -/
def reorgNewValid (first_block_num : Int) (block_hashes : List String)
    (e : ChannelEventRow) : Bool :=
  decide (e.block_hash =
    some (((block_hashes.get? (e.block_number - first_block_num).toNat).getD "<invalid>")))

/-- A touched row whose `block_is_valid` actually changes. -/
def reorgFlipped (chain_id_ first_block_num : Int) (block_hashes : List String)
    (e : ChannelEventRow) : Bool :=
  reorgTouched chain_id_ first_block_num e &&
    decide (e.block_is_valid ≠ some (reorgNewValid first_block_num block_hashes e))

/-- The distinct channels of the flipped rows, in first-flip order. -/
def dedupKeysFirst (l : List ChanKey) : List ChanKey :=
  l.foldl (fun acc k => if k ∈ acc then acc else acc ++ [k]) []

/-- `mcy_set_recent_blocks(chain_id_, first_block_num, block_hashes)`: flip
`block_is_valid` on the touched rows that disagree with the asserted hash
list, fire the `UPDATE` branch of the trigger for each flipped row (the
`AFTER` row triggers see the post-statement table), and return the number of
flipped rows plus the status of each distinct touched channel. -/
def mcy_set_recent_blocks (chain_id_ first_block_num : Int)
    (block_hashes : List String) (db : DB) :
    DB × Nat × List ChannelStatus :=
  let flipped := reorgFlipped chain_id_ first_block_num block_hashes
  let events := db.channel_events.map fun e =>
    if flipped e then
      { e with block_is_valid := some (reorgNewValid first_block_num block_hashes e) }
    else e
  let db' := { db with channel_events := events }
  let intents := db.channel_intents.map fun ci =>
    if db.channel_events.any (fun o => flipped o && intentMatches ci o) then
      { ci with block_hash := mcy_get_intent_block_hash db' ci }
    else ci
  let db' := { db' with channel_intents := intents }
  let updated_event_count := (db.channel_events.filter flipped).length
  let updated_channels :=
    dedupKeysFirst ((db.channel_events.filter flipped).map fun e =>
      ⟨e.chain_id, e.contract_id, e.channel_id⟩)
  (db', updated_event_count, updated_channels.map fun k => mcy_get_channel_status db' k true)

/-! ### State-update admission -/

/-- The channel key of a state-update input. -/
def StateUpdateInput.key (u : StateUpdateInput) : ChanKey :=
  ⟨u.chain_id, u.contract_id, u.channel_id⟩

/-- `mcy_get_state_update_status(state_update)`.  `signature_valid` comes
from the injected `ecdsa_verify` capability `sigv`
(`mcy_state_update_is_signature_valid`). -/
def mcy_get_state_update_status (sigv : StateUpdateInput → Bool)
    (state_update : StateUpdateInput) (db : DB) : StateUpdateStatus :=
  let last_status := mcy_get_latest_state_update db state_update.key
  let is_latest :=
    match last_status with
    | none => true
    | some l => decide (l.amount ≤ state_update.amount)
  { signature_valid := sigv state_update
    is_latest := is_latest
    added_amount :=
      if is_latest then some (state_update.amount - ((last_status.map (·.amount)).getD 0))
      else none
    dupe_status :=
      if (last_status.map fun l => decide (l.amount = state_update.amount)).getD false
      then "dupe" else "distinct" }

/-- The `jsonb` result of `mcy_insert_state_update`: either the error object
of `mcy_insert_invalid_state_update`, or the success document. -/
inductive InsertStateUpdateResult
  | err (reason : String) (status : StateUpdateStatus)
  | success (id : Option Nat) (created : Bool) (status : StateUpdateStatus)
      (is_latest : Bool) (latest_state : Option StateUpdateRow)
      (added_amount : Option Int) (channel_payment : Option Int)
      (channel_remaining_balance : Option Int)
deriving DecidableEq, Repr

/-- `created` field of an insert result (`false` on the error object, which
has none). -/
def InsertStateUpdateResult.created? : InsertStateUpdateResult → Bool
  | .err _ _ => false
  | .success _ created _ _ _ _ _ _ => created

/-- `mcy_insert_invalid_state_update(reason, status, blob)`: append a
quarantine row and build the error object. -/
def mcy_insert_invalid_state_update (reason : String) (status : StateUpdateStatus)
    (blob : StateUpdateInput) (db : DB) : DB × InsertStateUpdateResult :=
  let row : InvalidStateUpdateRow :=
    { id := db.next_invalid_id
      inserted_on := db.now
      reason := reason
      status := status
      blob := blob }
  ({ db with
      invalid_state_updates := db.invalid_state_updates ++ [row]
      next_invalid_id := db.next_invalid_id + 1 },
   .err reason status)

/-- `mcy_insert_state_update(state_update, include_intent default true)`.
The insert of the `distinct` case re-checks the column domains and the
unique index; a failure there is an uncaught SQL exception (`Except.error`),
aborting the transaction. -/
def mcy_insert_state_update (sigv : StateUpdateInput → Bool)
    (state_update : StateUpdateInput) (include_intent : Bool) (db : DB) :
    Except String (DB × InsertStateUpdateResult) :=
  let status := mcy_get_state_update_status sigv state_update db
  if ¬ status.signature_valid then
    .ok (mcy_insert_invalid_state_update "signature_invalid" status state_update db)
  else if status.dupe_status = "conflict" then
    .ok (mcy_insert_invalid_state_update "conflict" status state_update db)
  else if state_update.amount < 0 then
    .ok (mcy_insert_invalid_state_update "negative_amount" status state_update db)
  else
    let ins : Except String (DB × Option StateUpdateRow) :=
      if status.dupe_status = "distinct" then
        if state_update.signature.length ≠ 130 then
          .error "value for domain mcy_secp256k1_sig violates check constraint"
        else if db.state_updates.any fun r =>
            suSameChannel state_update.key r && decide (r.amount = state_update.amount) then
          .error "duplicate key value violates unique constraint state_updates_chain_contract_chan_seq_unique_idx"
        else
          let row : StateUpdateRow :=
            { id := db.next_state_update_id
              chain_id := state_update.chain_id
              contract_id := state_update.contract_id
              channel_id := state_update.channel_id
              ts := state_update.ts
              amount := state_update.amount
              signature := state_update.signature }
          .ok ({ db with
                  state_updates := db.state_updates ++ [row]
                  next_state_update_id := db.next_state_update_id + 1 },
               some row)
      else .ok (db, none)
    match ins with
    | .error e => .error e
    | .ok (db, new_row) =>
      let latest_state :=
        if status.is_latest ∧ new_row.isSome then new_row
        else mcy_get_latest_state_update db state_update.key
      let channel := (mcy_get_channel db state_update.key include_intent).channel
      .ok (db,
        .success (new_row.map (·.id)) new_row.isSome status status.is_latest latest_state
          status.added_amount (latest_state.map (·.amount))
          (sqlSub (channel.bind (·.value)) (latest_state.map (·.amount))))

/-! ### Big-endian packers -/

/-- Lowercase hex digit. -/
def hexDigit (n : Nat) : Char :=
  ("0123456789abcdef".toList).getD n '0'

/-- `to_hex(byte_val)` for a byte value: lowercase, no leading zeros
(`to_hex(0) = "0"`); modelled for the byte arguments the packer produces. -/
def pg_to_hex (n : Nat) : String :=
  if n < 16 then String.mk [hexDigit n]
  else String.mk [hexDigit (n / 16), hexDigit (n % 16)]

/-- One iteration's appendee: `byte_hex`, zero-padded to two characters. -/
def hexByte (b : Nat) : String :=
  (if b < 16 then "0" else "") ++ pg_to_hex b

/-- The packer's `while val > 0` loop, fuelled (the fuel bounds the value,
and `val / 256 < val` for positive `val`): hex bytes of `v`, most
significant first, empty for `0`. -/
def packPosF (fuel v : Nat) : String :=
  match v, fuel with
  | 0, _ => ""
  | _ + 1, 0 => ""
  | v + 1, fuel + 1 => packPosF fuel ((v + 1) / 256) ++ hexByte ((v + 1) % 256)

/-- The loop of the packers on a non-negative value. -/
def packPos (v : Nat) : String := packPosF v v

/-- `mcy_pack_bigint_big_endian_bytes(num_bytes, val)`.  The loop runs only
while `val > 0` (a negative `val` leaves `result` empty); then the length
check and the left zero-padding. -/
def mcy_pack_bigint_big_endian_bytes (num_bytes : Int) (val : Int) :
    Except String String :=
  let result := if 0 < val then packPos val.toNat else ""
  if num_bytes < (result.length / 2 : Nat) then
    .error ("value too large for " ++ toString num_bytes ++ " bytes: " ++ toString val)
  else
    .ok (String.mk (List.replicate (2 * (num_bytes - (result.length / 2 : Nat)).toNat) '0')
      ++ result)

/-- `trunc` of a rational: round toward zero. -/
def ratTrunc (q : ℚ) : Int :=
  if q < 0 then -((-q).floor) else q.floor

/-- `mcy_pack_numeric_big_endian_bytes(num_bytes, val)`: same algorithm on
arbitrary-precision `numeric` (modelled as `ℚ`); `val != trunc(val)` raises,
and after that check `val` is the integer `trunc(val)`, on which the
byte loop, length check, and padding behave as in the `bigint` copy. -/
def mcy_pack_numeric_big_endian_bytes (num_bytes : Int) (val : ℚ) :
    Except String String :=
  if val ≠ (ratTrunc val : ℚ) then
    .error ("value must not have decimal places: " ++ toString val)
  else
    mcy_pack_bigint_big_endian_bytes num_bytes (ratTrunc val)

/-! ## Lemmas and theorems -/

/-! ### The big-endian packer (claim C9) -/

/-- The value of a lowercase hex digit (big-endian decoding helper). -/
def hexVal (c : Char) : Nat :=
  ("0123456789abcdef".toList).indexOf c

/-- Big-endian base-16 fold over a digit list. -/
def hexFold (a : Nat) (l : List Char) : Nat :=
  l.foldl (fun acc c => 16 * acc + hexVal c) a

/-- Big-endian interpretation of a hex string. -/
def hexToNat (s : String) : Nat :=
  hexFold 0 s.data

theorem hexFold_append (a : Nat) (l₁ l₂ : List Char) :
    hexFold a (l₁ ++ l₂) = hexFold (hexFold a l₁) l₂ :=
  List.foldl_append ..

theorem hexFold_eq (l : List Char) : ∀ a : Nat,
    hexFold a l = a * 16 ^ l.length + hexFold 0 l := by
  induction l with
  | nil => intro a; simp [hexFold]
  | cons c t ih =>
    intro a
    have h1 : hexFold a (c :: t) = hexFold (16 * a + hexVal c) t := rfl
    have h2 : hexFold 0 (c :: t) = hexFold (16 * 0 + hexVal c) t := rfl
    rw [h1, h2, ih (16 * a + hexVal c), ih (16 * 0 + hexVal c)]
    simp only [List.length_cons]
    ring

theorem hexDigit_spec (d : Nat) (hd : d < 16) :
    hexVal (hexDigit d) = d ∧ hexDigit d ∈ "0123456789abcdef".toList := by
  have h : ∀ d : Fin 16,
      hexVal (hexDigit d.val) = d.val ∧ hexDigit d.val ∈ "0123456789abcdef".toList := by
    decide
  exact h ⟨d, hd⟩

theorem hexByte_spec (b : Nat) (hb : b < 256) :
    (hexByte b).data.length = 2 ∧ hexFold 0 (hexByte b).data = b ∧
      ∀ c ∈ (hexByte b).data, c ∈ "0123456789abcdef".toList := by
  by_cases h : b < 16
  · have hd := hexDigit_spec b h
    have hdata : (hexByte b).data = ['0', hexDigit b] := by
      simp only [hexByte, pg_to_hex, if_pos h]
      rfl
    rw [hdata]
    refine ⟨rfl, ?_, ?_⟩
    · show 16 * (16 * 0 + hexVal '0') + hexVal (hexDigit b) = b
      have h0 : hexVal '0' = 0 := by decide
      rw [h0, hd.1]
      omega
    · intro c hc
      simp only [List.mem_cons, List.not_mem_nil, or_false] at hc
      rcases hc with rfl | rfl
      · decide
      · exact hd.2
  · have hq : b / 16 < 16 := Nat.div_lt_of_lt_mul (by omega)
    have hr : b % 16 < 16 := Nat.mod_lt _ (by omega)
    have hdq := hexDigit_spec (b / 16) hq
    have hdr := hexDigit_spec (b % 16) hr
    have hdata : (hexByte b).data = [hexDigit (b / 16), hexDigit (b % 16)] := by
      simp only [hexByte, pg_to_hex, if_neg h]
      rfl
    rw [hdata]
    refine ⟨rfl, ?_, ?_⟩
    · show 16 * (16 * 0 + hexVal (hexDigit (b / 16))) + hexVal (hexDigit (b % 16)) = b
      rw [hdq.1, hdr.1]
      omega
    · intro c hc
      simp only [List.mem_cons, List.not_mem_nil, or_false] at hc
      rcases hc with rfl | rfl
      · exact hdq.2
      · exact hdr.2

theorem packPosF_zero (f : Nat) : packPosF f 0 = "" := by
  cases f <;> rfl

theorem packPosF_congr : ∀ v f f' : Nat, v ≤ f → v ≤ f' →
    packPosF f v = packPosF f' v := by
  intro v
  induction v using Nat.strong_induction_on with
  | _ v ih =>
    intro f f' hf hf'
    match v, f, f' with
    | 0, f, f' => rw [packPosF_zero, packPosF_zero]
    | v + 1, f + 1, f' + 1 =>
      show packPosF f ((v + 1) / 256) ++ _ = packPosF f' ((v + 1) / 256) ++ _
      have hd : (v + 1) / 256 < v + 1 := Nat.div_lt_self (Nat.succ_pos v) (by omega)
      rw [ih ((v + 1) / 256) hd f f' (by omega) (by omega)]

theorem packPos_zero : packPos 0 = "" := rfl

theorem packPos_pos (v : Nat) (hv : 0 < v) :
    packPos v = packPos (v / 256) ++ hexByte (v % 256) := by
  match v, hv with
  | v + 1, _ =>
    show packPosF v ((v + 1) / 256) ++ hexByte ((v + 1) % 256) = _
    have hd : (v + 1) / 256 < v + 1 := Nat.div_lt_self (Nat.succ_pos v) (by omega)
    rw [packPosF_congr ((v + 1) / 256) v ((v + 1) / 256) (by omega) le_rfl]
    rfl

/-- Full characterization of the packer loop: it emits an even number of
lowercase hex characters whose big-endian value is `v`, using the minimal
number of bytes. -/
theorem packPos_spec : ∀ v : Nat,
    hexFold 0 (packPos v).data = v ∧
    (∀ c ∈ (packPos v).data, c ∈ "0123456789abcdef".toList) ∧
    ∃ k, (packPos v).data.length = 2 * k ∧ v < 256 ^ k ∧ (k = 0 ∨ 256 ^ (k - 1) ≤ v) := by
  intro v
  induction v using Nat.strong_induction_on with
  | _ v ih =>
    rcases Nat.eq_zero_or_pos v with hv | hv
    · subst hv
      refine ⟨rfl, ?_, 0, rfl, by omega, Or.inl rfl⟩
      intro c hc
      cases hc
    · have hd : v / 256 < v := Nat.div_lt_self hv (by omega)
      obtain ⟨ihf, ihc, k, ihl, ihlt, ihge⟩ := ih (v / 256) hd
      have hb := hexByte_spec (v % 256) (Nat.mod_lt _ (by omega))
      rw [packPos_pos v hv]
      simp only [String.data_append]
      refine ⟨?_, ?_, k + 1, ?_, ?_, ?_⟩
      · rw [hexFold_append, hexFold_eq (hexByte (v % 256)).data, hb.1, ihf, hb.2.1]
        have : v = 256 * (v / 256) + v % 256 := (Nat.div_add_mod v 256).symm
        omega
      · intro c hc
        rcases List.mem_append.mp hc with hc | hc
        · exact ihc c hc
        · exact hb.2.2 c hc
      · simp [ihl, hb.1]; ring
      · have : 256 ^ (k + 1) = 256 * 256 ^ k := by ring
        have hv2 : v = 256 * (v / 256) + v % 256 := (Nat.div_add_mod v 256).symm
        have : v / 256 ≤ 256 ^ k - 1 := by omega
        have h256 : (1 : Nat) ≤ 256 ^ k := Nat.one_le_pow _ _ (by omega)
        calc v = 256 * (v / 256) + v % 256 := hv2
          _ ≤ 256 * (256 ^ k - 1) + 255 := by omega
          _ < 256 ^ (k + 1) := by
              have : 256 ^ (k + 1) = 256 * 256 ^ k := by ring
              omega
      · right
        show 256 ^ k ≤ v
        rcases ihge with hk0 | hk
        · subst hk0; simpa using hv
        · have hv2 : v = 256 * (v / 256) + v % 256 := (Nat.div_add_mod v 256).symm
          have h1 : 256 ^ k = 256 * 256 ^ (k - 1) := by
            rcases k with _ | k
            · omega
            · simp [pow_succ]; ring
          calc 256 ^ k = 256 * 256 ^ (k - 1) := h1
            _ ≤ 256 * (v / 256) := by omega
            _ ≤ v := by omega

theorem hexFold_zeros (m : Nat) : hexFold 0 (List.replicate m '0') = 0 := by
  induction m with
  | zero => rfl
  | succ m ih =>
    rw [List.replicate_succ]
    show hexFold (16 * 0 + hexVal '0') _ = 0
    have h0 : 16 * 0 + hexVal '0' = 0 := by decide
    rw [h0]
    exact ih

theorem ratTrunc_intCast (v : Int) : ratTrunc (v : ℚ) = v := by
  have hfl : ∀ q : ℚ, q.floor = ⌊q⌋ := fun q => by rw [Rat.floor_def', ← Rat.floor_def]
  unfold ratTrunc
  by_cases h : (v : ℚ) < 0
  · rw [if_pos h]
    have : (-(v : ℚ)) = ((-v : Int) : ℚ) := by push_cast; ring
    rw [this, hfl, Int.floor_intCast]
    ring
  · rw [if_neg h, hfl, Int.floor_intCast]

theorem pack_numeric_eq_bigint (n v : Int) :
    mcy_pack_numeric_big_endian_bytes n (v : ℚ) = mcy_pack_bigint_big_endian_bytes n v := by
  unfold mcy_pack_numeric_big_endian_bytes
  rw [ratTrunc_intCast]
  rw [if_neg (by simp)]

/-- C9 (amended): for every byte width `n` and integral value `v`, the packer
returns exactly `2*n` lowercase hex characters whose big-endian value is `v`,
left-padded with zeros, when `0 ≤ v < 256^n`; it raises an error when
`256^n ≤ v` or when the value has a fractional part; but a NEGATIVE value is
packed as the all-zero string instead of raising.  The `numeric` and `bigint`
variants agree on shared inputs. -/
theorem C9_packer (n : Nat) (v : Int) :
    (0 ≤ v → v < 256 ^ n →
      ∃ s, mcy_pack_bigint_big_endian_bytes (n : Int) v = .ok s ∧
        mcy_pack_numeric_big_endian_bytes (n : Int) (v : ℚ) = .ok s ∧
        s.data.length = 2 * n ∧ hexToNat s = v.toNat ∧
        ∀ c ∈ s.data, c ∈ "0123456789abcdef".toList) ∧
    (256 ^ n ≤ v →
      ∃ e, mcy_pack_bigint_big_endian_bytes (n : Int) v = .error e ∧
        mcy_pack_numeric_big_endian_bytes (n : Int) (v : ℚ) = .error e) ∧
    (v < 0 →
      ∃ s, mcy_pack_bigint_big_endian_bytes (n : Int) v = .ok s ∧
        mcy_pack_numeric_big_endian_bytes (n : Int) (v : ℚ) = .ok s ∧
        s.data = List.replicate (2 * n) '0') ∧
    (∀ q : ℚ, q.den ≠ 1 →
      ∃ e, mcy_pack_numeric_big_endian_bytes (n : Int) q = .error e) := by
  have hM : ((256 ^ n : Nat) : Int) = (256 : Int) ^ n := by push_cast; ring
  refine ⟨?_, ?_, ?_, ?_⟩
  · intro hv0 hvn
    rw [pack_numeric_eq_bigint]
    have hres : (if 0 < v then packPos v.toNat else "") = packPos v.toNat := by
      by_cases h0 : 0 < v
      · rw [if_pos h0]
      · rw [if_neg h0]
        have hz : v = 0 := by omega
        subst hz
        rfl
    obtain ⟨hf, hc, k, hl, hlt, hge⟩ := packPos_spec v.toNat
    have hvnn : v.toNat < 256 ^ n := by omega
    have hkn : k ≤ n := by
      rcases hge with rfl | hge
      · omega
      · by_contra hkn
        have h1 : n ≤ k - 1 := by omega
        have h2 : (256 : Nat) ^ n ≤ 256 ^ (k - 1) := Nat.pow_le_pow_right (by omega) h1
        omega
    have hlen : ((packPos v.toNat).length / 2 : Nat) = k := by
      show ((packPos v.toNat).data.length / 2 : Nat) = k
      omega
    unfold mcy_pack_bigint_big_endian_bytes
    simp only [hres, hlen]
    rw [if_neg (by omega)]
    refine ⟨_, rfl, rfl, ?_, ?_, ?_⟩
    · rw [String.data_append, List.length_append]
      show (List.replicate (2 * (((n : Int) - (k : Int)).toNat)) '0').length +
        (packPos v.toNat).data.length = 2 * n
      rw [List.length_replicate, hl]
      omega
    · show hexFold 0 (String.mk (List.replicate (2 * (((n : Int) - (k : Int)).toNat)) '0')
        ++ packPos v.toNat).data = v.toNat
      rw [String.data_append]
      show hexFold 0 (List.replicate _ '0' ++ (packPos v.toNat).data) = v.toNat
      rw [hexFold_append, hexFold_zeros, hf]
    · intro c hcmem
      rw [String.data_append] at hcmem
      rcases List.mem_append.mp hcmem with hcm | hcm
      · have : c = '0' := List.eq_of_mem_replicate hcm
        subst this
        decide
      · exact hc c hcm
  · intro hvn
    rw [pack_numeric_eq_bigint]
    have h1 : (1 : Int) ≤ 256 ^ n := by
      have : (1 : Nat) ≤ 256 ^ n := Nat.one_le_pow _ _ (by omega)
      omega
    have hvpos : 0 < v := by omega
    obtain ⟨hf, hc, k, hl, hlt, hge⟩ := packPos_spec v.toNat
    have hnk : n < k := by
      have hvt : 256 ^ n ≤ v.toNat := by omega
      by_contra hnk
      have : (256 : Nat) ^ k ≤ 256 ^ n := Nat.pow_le_pow_right (by omega) (by omega)
      omega
    have hlen : ((packPos v.toNat).length / 2 : Nat) = k := by
      show ((packPos v.toNat).data.length / 2 : Nat) = k
      omega
    have hres : (if 0 < v then packPos v.toNat else "") = packPos v.toNat := if_pos hvpos
    unfold mcy_pack_bigint_big_endian_bytes
    simp only [hres, hlen]
    rw [if_pos (by omega)]
    exact ⟨_, rfl, rfl⟩
  · intro hv
    rw [pack_numeric_eq_bigint]
    have hres : (if 0 < v then packPos v.toNat else "") = "" := if_neg (by omega)
    have hlen : (("" : String).length / 2 : Nat) = 0 := rfl
    unfold mcy_pack_bigint_big_endian_bytes
    simp only [hres, hlen]
    rw [if_neg (by omega)]
    refine ⟨_, rfl, rfl, ?_⟩
    rw [String.data_append]
    show List.replicate (2 * (((n : Int) - ((0 : Nat) : Int)).toNat)) '0' ++ [] = _
    rw [List.append_nil]
    congr 1
  · intro q hq
    unfold mcy_pack_numeric_big_endian_bytes
    rw [if_pos ?_]
    · exact ⟨_, rfl⟩
    · intro hcontra
      have : q.den = 1 := by rw [hcontra]; exact Rat.den_intCast _
      exact hq this

/-- C9 counterexample: for a negative value whose magnitude exceeds the byte
width (`-256` in one byte) the packer does NOT raise an error; it returns the
all-zero string, which does not encode the value. -/
theorem C9_counterexample :
    mcy_pack_bigint_big_endian_bytes 1 (-256) = .ok "00" ∧
      mcy_pack_numeric_big_endian_bytes 1 ((-256 : Int) : ℚ) = .ok "00" := by
  constructor
  · rfl
  · decide

/-! ### Event ordering (claim C5) -/

/-- C5 (amended): the stream returned by `mcy_get_channel_events` is sorted
by `(block_number, block_hash, ts)` with null hashes sorting LAST, so a
chain event precedes an uncorrelated intent of the same `block_number` — an
uncorrelated intent (null `block_hash`) never precedes a chain event of the
same `block_number`. -/
theorem C5_events_sorted (db : DB) (chan : ChanKey) (include_intent : Bool) :
    (mcy_get_channel_events db chan include_intent).Sorted rowle ∧
    (mcy_get_channel_events db chan include_intent).Pairwise
      (fun a b => ¬ (a.block_hash = none ∧ b.block_hash ≠ none ∧
        a.block_number = b.block_number)) := by
  have hs : (mcy_get_channel_events db chan include_intent).Sorted rowle :=
    List.sorted_insertionSort rowle _
  refine ⟨hs, hs.imp ?_⟩
  rintro a b hab ⟨ha, hb, hbn⟩
  obtain ⟨h, hbh⟩ : ∃ h, b.block_hash = some h := by
    cases hbh : b.block_hash with
    | none => exact absurd hbh hb
    | some h => exact ⟨h, rfl⟩
  have hab' : a.sortKey ≤ b.sortKey := hab
  rw [ChannelEventRow.sortKey, ChannelEventRow.sortKey, ha, hbh] at hab'
  rcases (Prod.Lex.le_iff _ _).mp hab' with hlt | ⟨heq, hle⟩
  · omega
  · rcases (Prod.Lex.le_iff _ _).mp hle with hlt2 | ⟨heq2, _⟩
    · rcases (Prod.Lex.lt_iff _ _).mp hlt2 with hlt3 | ⟨heq3, _⟩
      · have hlt3' : (true : Bool) < false := hlt3
        exact absurd hlt3' (by decide)
      · have heq3' : (true : Bool) = false := heq3
        exact Bool.noConfusion heq3'
    · have heq2' : ((true : Bool), ("" : String)) = (false, h) := heq2
      have hx : (true : Bool) = false := congrArg Prod.fst heq2'
      exact Bool.noConfusion hx

/-- A deposit event payload used by concrete counterexamples. -/
def cexFields : EventFields :=
  ⟨"ffffffffffffffffffffffffffffffffffffffff", "", 0, 0, 5, 0, 0⟩

/-- A valid chain event at block 2 (counterexample data). -/
def c5_event : ChannelEventRow :=
  ⟨3, 1, "c", "a", 5, 2, some "hh", some true, "s", .DidDeposit, cexFields⟩

/-- An uncorrelated intent at block 2 (counterexample data). -/
def c5_intent : ChannelEventRow :=
  ⟨7, 1, "c", "a", 0, 2, none, none, "s", .DidDeposit, cexFields⟩

/-- A store holding the chain event and the uncorrelated intent. -/
def c5_db : DB :=
  { emptyDB with channel_events := [c5_event], channel_intents := [c5_intent] }

/-- C5 counterexample: at equal `block_number` the returned order is
[chain event, intent] — the intent does NOT precede the chain event, because
the engine's `order by block_hash` ascending puts nulls last, not first. -/
theorem C5_counterexample :
    mcy_get_channel_events c5_db ⟨1, "c", "a"⟩ true = [c5_event, c5_intent] ∧
      c5_intent.block_hash = none ∧ c5_event.block_hash ≠ none ∧
      c5_event.block_number = c5_intent.block_number := by
  refine ⟨by decide, rfl, by decide, rfl⟩

/-- C9 witness: the amended theorem at width 4, value `0xaabb`. -/
theorem C9_packer_witness :
    (0 : Int) ≤ 43707 ∧ (43707 : Int) < 256 ^ 4 ∧
      ∃ s, mcy_pack_bigint_big_endian_bytes ((4 : Nat) : Int) 43707 = .ok s ∧
        mcy_pack_numeric_big_endian_bytes ((4 : Nat) : Int) ((43707 : Int) : ℚ) = .ok s ∧
        s.data.length = 2 * 4 ∧ hexToNat s = (43707 : Int).toNat ∧
        ∀ c ∈ s.data, c ∈ "0123456789abcdef".toList :=
  ⟨by decide, by decide, (C9_packer 4 43707).1 (by decide) (by decide)⟩

/-! ### Balance identity (claim C8) -/

/-- C8 (amended): whenever the derived `channel.value` AND `current_payment`
are both non-null, `current_remaining_balance = value - payment`, hence
`current_remaining_balance + current_payment = channel.value`.  (When the
channel has no state update, `current_payment` and
`current_remaining_balance` are both null and the sum is null, not
`channel.value`.) -/
theorem C8_balance (db : DB) (chan : ChanKey) (include_intent : Bool) (v p : Int)
    (hv : (mcy_get_channel_status db chan include_intent).channel.bind McyChannel.value =
      some v)
    (hp : (mcy_get_channel_status db chan include_intent).current_payment = some p) :
    (mcy_get_channel_status db chan include_intent).current_remaining_balance =
      some (v - p) ∧ (v - p) + p = v := by
  constructor
  · have hv' : (mcy_get_channel db chan include_intent).channel.bind (fun c => c.value) =
      some v := hv
    have hp' : (mcy_get_latest_state_update db chan).map (fun r => r.amount) = some p := hp
    show sqlSub ((mcy_get_channel db chan include_intent).channel.bind (fun c => c.value))
      ((mcy_get_latest_state_update db chan).map (fun r => r.amount)) = some (v - p)
    rw [hv', hp']
    rfl
  · omega

/-- A create event that opens a channel with `value = "0"`
(counterexample data for C8). -/
def c8_event : ChannelEventRow :=
  ⟨1, 1, "c", "a", 0, 1, some "h1", some true, "s", .DidCreateChannel,
    ⟨"aa", "bb", 17, 7890, 0, 0, 0⟩⟩

/-- A store with an open channel (non-null `value`) and NO state updates. -/
def c8_db : DB := { emptyDB with channel_events := [c8_event] }

/-- C8 counterexample: with a non-null `channel.value` but no state update,
`current_payment` and `current_remaining_balance` are null, so
`current_remaining_balance + current_payment` (SQL null addition) is null
and differs from `channel.value`. -/
theorem C8_counterexample :
    ((mcy_get_channel_status c8_db ⟨1, "c", "a"⟩ true).channel.bind
        McyChannel.value).isSome = true ∧
      sqlAdd (mcy_get_channel_status c8_db ⟨1, "c", "a"⟩ true).current_remaining_balance
          (mcy_get_channel_status c8_db ⟨1, "c", "a"⟩ true).current_payment ≠
        (mcy_get_channel_status c8_db ⟨1, "c", "a"⟩ true).channel.bind McyChannel.value := by
  decide

/-- A create event opening a channel with `value = "500"` (witness data). -/
def c8w_event : ChannelEventRow :=
  ⟨1, 1, "c", "a", 0, 1, some "h1", some true, "s", .DidCreateChannel,
    ⟨"aa", "bb", 17, 7890, 500, 0, 0⟩⟩

/-- A store with an open channel of value 500 and a state update of 150. -/
def c8w_db : DB :=
  { emptyDB with
    channel_events := [c8w_event]
    state_updates := [⟨1, 1, "c", "a", 0, 150, "sig"⟩] }

/-- C8 witness: value 500, payment 150, remaining balance 350. -/
theorem C8_balance_witness :
    (mcy_get_channel_status c8w_db ⟨1, "c", "a"⟩ true).channel.bind McyChannel.value =
        some 500 ∧
      (mcy_get_channel_status c8w_db ⟨1, "c", "a"⟩ true).current_payment = some 150 ∧
      ((mcy_get_channel_status c8w_db ⟨1, "c", "a"⟩ true).current_remaining_balance =
        some (500 - 150) ∧ (500 - 150) + 150 = (500 : Int)) :=
  ⟨by decide, by decide,
    C8_balance c8w_db ⟨1, "c", "a"⟩ true 500 150 (by decide) (by decide)⟩

/-! ### Admission never writes both logs (claim C10) -/

/-- C10: whenever `mcy_insert_state_update` returns the error object with
reason `signature_invalid`, `conflict`, or `negative_amount`, no row is
added to `state_updates` (or any other event log); the only write is the
single quarantine row appended to `invalid_state_updates`. -/
theorem C10_quarantine_only (sigv : StateUpdateInput → Bool) (u : StateUpdateInput)
    (include_intent : Bool) (db db' : DB) (reason : String) (status : StateUpdateStatus)
    (h : mcy_insert_state_update sigv u include_intent db = .ok (db', .err reason status))
    (hr : reason = "signature_invalid" ∨ reason = "conflict" ∨ reason = "negative_amount") :
    db'.state_updates = db.state_updates ∧
    db'.channel_events = db.channel_events ∧
    db'.channel_intents = db.channel_intents ∧
    db'.invalid_state_updates = db.invalid_state_updates ++
      [⟨db.next_invalid_id, db.now, reason, status, u⟩] := by
  simp only [mcy_insert_state_update] at h
  split at h
  · simp only [mcy_insert_invalid_state_update, Except.ok.injEq, Prod.mk.injEq] at h
    obtain ⟨hdb, hres⟩ := h
    obtain ⟨hreason, hstatus⟩ : "signature_invalid" = reason ∧
        mcy_get_state_update_status sigv u db = status := by
      cases hres; exact ⟨rfl, rfl⟩
    subst hdb; subst hreason; subst hstatus
    exact ⟨rfl, rfl, rfl, rfl⟩
  · split at h
    · simp only [mcy_insert_invalid_state_update, Except.ok.injEq, Prod.mk.injEq] at h
      obtain ⟨hdb, hres⟩ := h
      obtain ⟨hreason, hstatus⟩ : "conflict" = reason ∧
          mcy_get_state_update_status sigv u db = status := by
        cases hres; exact ⟨rfl, rfl⟩
      subst hdb; subst hreason; subst hstatus
      exact ⟨rfl, rfl, rfl, rfl⟩
    · split at h
      · simp only [mcy_insert_invalid_state_update, Except.ok.injEq, Prod.mk.injEq] at h
        obtain ⟨hdb, hres⟩ := h
        obtain ⟨hreason, hstatus⟩ : "negative_amount" = reason ∧
            mcy_get_state_update_status sigv u db = status := by
          cases hres; exact ⟨rfl, rfl⟩
        subst hdb; subst hreason; subst hstatus
        exact ⟨rfl, rfl, rfl, rfl⟩
      · split at h
        · exact absurd h (by simp)
        · simp only [Except.ok.injEq, Prod.mk.injEq] at h
          exact absurd h.2 (by simp)

/-- Negative-amount input for the C10 witness. -/
def c10_input : StateUpdateInput :=
  ⟨1, "cccccccccccccccccccccccccccccccccccccccc",
    "aaaaaaaaaaaaaaaaaaaaaaaaaaaaaaaaaaaaaaaaaaaaaaaaaaaaaaaaaaaaaaaa",
    1234, -1, "sig"⟩

/-- The store after quarantining `c10_input` on the empty store. -/
def c10_db : DB :=
  { emptyDB with
    invalid_state_updates :=
      [⟨1, 0, "negative_amount",
        mcy_get_state_update_status (fun _ => true) c10_input emptyDB, c10_input⟩]
    next_invalid_id := 2 }

/-- C10 witness: a negative-amount quarantine on the empty store only
appends the one quarantine row. -/
theorem C10_quarantine_only_witness :
    c10_db.state_updates = emptyDB.state_updates ∧
      c10_db.channel_events = emptyDB.channel_events ∧
      c10_db.channel_intents = emptyDB.channel_intents ∧
      c10_db.invalid_state_updates = emptyDB.invalid_state_updates ++
        [⟨emptyDB.next_invalid_id, emptyDB.now, "negative_amount",
          mcy_get_state_update_status (fun _ => true) c10_input emptyDB, c10_input⟩] :=
  C10_quarantine_only (fun _ => true) c10_input true emptyDB c10_db "negative_amount"
    (mcy_get_state_update_status (fun _ => true) c10_input emptyDB) (by decide)
    (Or.inr (Or.inr rfl))

/-! ### Domain-check failure during admission (claim C4) -/

/-- A state update that passes the signature (stubbed true), conflict and
non-negativity checks, is `distinct`, but whose signature string has the
wrong length for the `mcy_secp256k1_sig` domain (2 characters, not 130). -/
def c4_input : StateUpdateInput :=
  ⟨1, "cccccccccccccccccccccccccccccccccccccccc",
    "aaaaaaaaaaaaaaaaaaaaaaaaaaaaaaaaaaaaaaaaaaaaaaaaaaaaaaaaaaaaaaaa",
    1234, 5, "ff"⟩

/-- C4: the current `mcy_insert_state_update` has no exception handler
around the insert, so the domain-check failure PROPAGATES to the caller
(aborting the transaction, hence writing no quarantine row) instead of being
caught and quarantined with reason `invalid_state: ...`. -/
theorem C4_domain_error_propagates :
    mcy_insert_state_update (fun _ => true) c4_input true emptyDB =
      .error "value for domain mcy_secp256k1_sig violates check constraint" := by
  decide

/-! ### Duplicate admission (claim C7) -/

theorem maxAmountRow_mem : ∀ (l : List StateUpdateRow) (r : StateUpdateRow),
    maxAmountRow l = some r → r ∈ l := by
  have key : ∀ (l : List StateUpdateRow) (acc : Option StateUpdateRow) (r : StateUpdateRow),
      l.foldl (fun acc x =>
        match acc with
        | none => some x
        | some a => if a.amount < x.amount then some x else acc) acc = some r →
      acc = some r ∨ r ∈ l := by
    intro l
    induction l with
    | nil => intro acc r h; exact Or.inl h
    | cons x t ih =>
      intro acc r h
      rcases ih _ r h with hacc | hmem
      · match acc, hacc with
        | none, hacc =>
          have hacc' : some x = some r := hacc
          exact Or.inr (by cases hacc'; exact List.mem_cons_self ..)
        | some a, hacc =>
          have hacc' : (if a.amount < x.amount then some x else some a) = some r := hacc
          by_cases hlt : a.amount < x.amount
          · rw [if_pos hlt] at hacc'
            exact Or.inr (by cases hacc'; exact List.mem_cons_self ..)
          · rw [if_neg hlt] at hacc'
            exact Or.inl hacc'
      · exact Or.inr (List.mem_cons_of_mem _ hmem)
  intro l r h
  rcases key l none r h with hacc | hmem
  · cases hacc
  · exact hmem

theorem maxAmountRow_append_max (l : List StateUpdateRow) (r : StateUpdateRow)
    (hmax : ∀ x ∈ l, x.amount < r.amount) :
    maxAmountRow (l ++ [r]) = some r := by
  unfold maxAmountRow
  rw [List.foldl_append]
  rcases hfold : l.foldl (fun acc x =>
      match acc with
      | none => some x
      | some a => if a.amount < x.amount then some x else acc) none with _ | a
  · rw [hfold]
    rfl
  · rw [hfold]
    have ha : a ∈ l := maxAmountRow_mem l a hfold
    show (if a.amount < r.amount then some r else some a) = some r
    rw [if_pos (hmax a ha)]

theorem filter_append_state (p : StateUpdateRow → Bool) (l : List StateUpdateRow)
    (r : StateUpdateRow) :
    (l ++ [r]).filter p = l.filter p ++ if p r then [r] else [] := by
  rw [List.filter_append]
  congr 1
  by_cases hp : p r
  · simp [hp, List.filter]
  · simp [hp, List.filter]

/-- C7 (amended): if `u` is accepted by a first call AND `u.amount` is
strictly above every stored amount for its channel (so `u` becomes the
channel's latest), then the first call inserts (`created = true`) and an
immediately repeated call leaves the store untouched and returns
`created = false`.  (If an EARLIER state update of the channel already
carries `u.amount`, the repeated call instead raises a unique-index
violation — see the counterexample.) -/
theorem C7_duplicate_idempotent (sigv : StateUpdateInput → Bool) (u : StateUpdateInput)
    (db : DB)
    (hsig : sigv u = true)
    (hamt : 0 ≤ u.amount)
    (hlen : u.signature.length = 130)
    (habove : ∀ r ∈ db.state_updates, suSameChannel u.key r = true → r.amount < u.amount) :
    ∃ db₁ res₁ res₂,
      mcy_insert_state_update sigv u true db = .ok (db₁, res₁) ∧
      res₁.created? = true ∧
      mcy_insert_state_update sigv u true db₁ = .ok (db₁, res₂) ∧
      res₂.created? = false := by
  have hfiltlt : ∀ x ∈ db.state_updates.filter (suSameChannel u.key),
      x.amount < u.amount := by
    intro x hx
    have hx' := List.mem_filter.mp hx
    exact habove x hx'.1 hx'.2
  have hst : mcy_get_state_update_status sigv u db =
      ⟨true, true,
        some (u.amount -
          (((mcy_get_latest_state_update db u.key).map (fun r => r.amount)).getD 0)),
        "distinct"⟩ := by
    simp only [mcy_get_state_update_status]
    rcases hcase : mcy_get_latest_state_update db u.key with _ | l
    · simp [hcase, hsig]
    · have hl : l.amount < u.amount := hfiltlt l (maxAmountRow_mem _ _ hcase)
      simp [hcase, hsig, hl.le, hl.ne]
  have hneg : ¬ u.amount < 0 := by omega
  have hany : (db.state_updates.any fun r =>
      suSameChannel u.key r && decide (r.amount = u.amount)) = false := by
    rw [List.any_eq_false]
    intro r hr
    by_cases hs : suSameChannel u.key r
    · have hne := (habove r hr hs).ne
      simp [hs, hne]
    · simp [hs]
  set row : StateUpdateRow :=
    ⟨db.next_state_update_id, u.chain_id, u.contract_id, u.channel_id,
      u.ts, u.amount, u.signature⟩ with hrow
  set db₁ : DB :=
    { db with
      state_updates := db.state_updates ++ [row]
      next_state_update_id := db.next_state_update_id + 1 } with hdb₁
  have hrowsame : suSameChannel u.key row = true := by
    simp [suSameChannel, hrow, StateUpdateInput.key]
  have hfilter1 : db₁.state_updates.filter (suSameChannel u.key) =
      db.state_updates.filter (suSameChannel u.key) ++ [row] := by
    show (db.state_updates ++ [row]).filter _ = _
    rw [filter_append_state, if_pos hrowsame]
  have hlatest1 : mcy_get_latest_state_update db₁ u.key = some row := by
    show maxAmountRow (db₁.state_updates.filter (suSameChannel u.key)) = some row
    rw [hfilter1]
    exact maxAmountRow_append_max _ _ hfiltlt
  have hst2 : mcy_get_state_update_status sigv u db₁ =
      ⟨true, true, some (u.amount - row.amount), "dupe"⟩ := by
    simp only [mcy_get_state_update_status, hlatest1]
    simp [hsig]
  have hcall1 : mcy_insert_state_update sigv u true db =
      .ok (db₁, .success (some row.id) true
        (⟨true, true,
          some (u.amount -
            (((mcy_get_latest_state_update db u.key).map (fun r => r.amount)).getD 0)),
          "distinct"⟩ : StateUpdateStatus) true (some row)
        (some (u.amount -
          (((mcy_get_latest_state_update db u.key).map (fun r => r.amount)).getD 0)))
        (some row.amount)
        (sqlSub ((mcy_get_channel db₁ u.key true).channel.bind (fun c => c.value))
          (some row.amount))) := by
    simp only [mcy_insert_state_update, hst, hlen, hany]
    simp [if_neg hneg]
  have hcall2 : mcy_insert_state_update sigv u true db₁ =
      .ok (db₁, .success none false
        (⟨true, true, some (u.amount - row.amount), "dupe"⟩ : StateUpdateStatus) true
        (some row) (some (u.amount - row.amount)) (some row.amount)
        (sqlSub ((mcy_get_channel db₁ u.key true).channel.bind (fun c => c.value))
          (some row.amount))) := by
    simp only [mcy_insert_state_update, hst2, hlatest1]
    simp [if_neg hneg]
    refine ⟨hlatest1, ⟨row, hlatest1, rfl⟩, ?_⟩
    rw [hlatest1]
    rfl
  exact ⟨db₁, _, _, hcall1, rfl, hcall2, rfl⟩


/-- A 40-character address literal for concrete scenarios. -/
def addr40 : String := String.mk (List.replicate 40 'c')

/-- A 64-character hash literal for concrete scenarios. -/
def hash64 : String := String.mk (List.replicate 64 'a')

/-- A 130-character signature literal for concrete scenarios. -/
def sig130 : String := String.mk (List.replicate 130 'f')

/-- The always-true signature capability (the test stub). -/
def sigStub : StateUpdateInput → Bool := fun _ => true

/-- State update with amount 2 (C7 counterexample data). -/
def c7c_u2 : StateUpdateInput := ⟨1, addr40, hash64, 0, 2, sig130⟩

/-- State update with amount 1, inserted after amount 2 — accepted but not
the latest (C7 counterexample data). -/
def c7c_u1 : StateUpdateInput := ⟨1, addr40, hash64, 1, 1, sig130⟩

/-- The store after inserting `c7c_u2` into the empty store. -/
def c7c_db1 : DB :=
  { emptyDB with
    state_updates := [⟨1, 1, addr40, hash64, 0, 2, sig130⟩]
    next_state_update_id := 2 }

/-- The store after additionally inserting `c7c_u1`. -/
def c7c_db2 : DB :=
  { c7c_db1 with
    state_updates := c7c_db1.state_updates ++ [⟨2, 1, addr40, hash64, 1, 1, sig130⟩]
    next_state_update_id := 3 }

/-- C7 counterexample: `c7c_u1` is accepted by a first call
(`created = true`), but repeating the same call raises a unique-index
violation — because the `dupe` check compares only against the LATEST (max
amount) row, a repeated non-latest update is classified `distinct` and
re-inserted, instead of returning `created = false`. -/
theorem C7_counterexample :
    (mcy_insert_state_update sigStub c7c_u2 true emptyDB).map Prod.fst = .ok c7c_db1 ∧
    (mcy_insert_state_update sigStub c7c_u1 true c7c_db1).map Prod.fst = .ok c7c_db2 ∧
    (mcy_insert_state_update sigStub c7c_u1 true c7c_db1).map
      (fun p => p.2.created?) = .ok true ∧
    mcy_insert_state_update sigStub c7c_u1 true c7c_db2 =
      .error "duplicate key value violates unique constraint state_updates_chain_contract_chan_seq_unique_idx" := by
  refine ⟨by decide, by decide, by decide, by decide⟩

/-- State update for the C7 witness. -/
def c7w_u : StateUpdateInput := ⟨1, addr40, hash64, 1234, 5, sig130⟩

/-- C7 witness: inserting `c7w_u` into the empty store and repeating the
call. -/
theorem C7_duplicate_idempotent_witness :
    sigStub c7w_u = true ∧ (0 : Int) ≤ c7w_u.amount ∧ c7w_u.signature.length = 130 ∧
      (∀ r ∈ emptyDB.state_updates, suSameChannel c7w_u.key r = true →
        r.amount < c7w_u.amount) ∧
      ∃ db₁ res₁ res₂,
        mcy_insert_state_update sigStub c7w_u true emptyDB = .ok (db₁, res₁) ∧
        res₁.created? = true ∧
        mcy_insert_state_update sigStub c7w_u true db₁ = .ok (db₁, res₂) ∧
        res₂.created? = false :=
  ⟨rfl, by decide, by decide, (by intro r hr; cases hr),
    C7_duplicate_idempotent sigStub c7w_u emptyDB rfl (by decide) (by decide)
      (by intro r hr; cases hr)⟩


/-! ### Reorg processor (claim C3) -/

theorem reorgNewValid_iff (first : Int) (hashes : List String) (e : ChannelEventRow)
    (h : String) (hbh : e.block_hash = some h) (hlen : h.length = 64) :
    reorgNewValid first hashes e = true ↔
      hashes.get? (e.block_number - first).toNat = some h := by
  unfold reorgNewValid
  rw [hbh]
  rcases hget : hashes.get? (e.block_number - first).toNat with _ | x
  · have hne : h ≠ "<invalid>" := by
      intro hh
      rw [hh] at hlen
      exact absurd hlen (by decide)
    simp [hget, hne]
  · simp [hget, eq_comm]

theorem filter_zip_map_length (f : ChannelEventRow → ChannelEventRow)
    (p : ChannelEventRow → Bool)
    (hpt : ∀ e, decide (e.block_is_valid ≠ (f e).block_is_valid) = p e) :
    ∀ l : List ChannelEventRow,
      ((l.zip (l.map f)).filter
        (fun q => decide (q.1.block_is_valid ≠ q.2.block_is_valid))).length =
      (l.filter p).length := by
  intro l
  induction l with
  | nil => rfl
  | cons e t ih =>
    show (((e, f e) :: t.zip (t.map f)).filter _).length = ((e :: t).filter p).length
    rw [List.filter_cons, List.filter_cons, hpt e]
    by_cases hp : p e = true
    · rw [if_pos hp, if_pos hp, List.length_cons, List.length_cons, ih]
    · rw [if_neg hp, if_neg hp]
      exact ih

/-- C3: after `mcy_set_recent_blocks(cid, first, hashes)` every event on
chain `cid` with `block_number ≥ first` is valid iff its hash equals the
asserted hash at index `block_number − first` (an index past the end of the
list invalidates); rows below `first` or on other chains are untouched; no
`block_hash` is rewritten; and `updated_event_count` is the number of rows
whose `block_is_valid` actually changed. -/
theorem C3_set_recent_blocks (db : DB) (cid first : Int) (hashes : List String)
    (hwf : ∀ e ∈ db.channel_events, ∃ h, e.block_hash = some h ∧ h.length = 64) :
    (mcy_set_recent_blocks cid first hashes db).2.1 =
      (((db.channel_events.zip
          (mcy_set_recent_blocks cid first hashes db).1.channel_events).filter
        (fun q => decide (q.1.block_is_valid ≠ q.2.block_is_valid))).length) ∧
    (mcy_set_recent_blocks cid first hashes db).1.state_updates = db.state_updates ∧
    (mcy_set_recent_blocks cid first hashes db).1.invalid_state_updates =
      db.invalid_state_updates ∧
    List.Forall₂ (fun e e' =>
      e'.id = e.id ∧ e'.block_hash = e.block_hash ∧ e'.ts = e.ts ∧
      e'.block_number = e.block_number ∧ e'.sender = e.sender ∧
      e'.event_type = e.event_type ∧ e'.fields = e.fields ∧
      (¬ (e.chain_id = cid ∧ first ≤ e.block_number) → e' = e) ∧
      ((e.chain_id = cid ∧ first ≤ e.block_number) → ∀ h, e.block_hash = some h →
        (e'.block_is_valid = some true ↔
          hashes.get? (e.block_number - first).toNat = some h)))
      db.channel_events (mcy_set_recent_blocks cid first hashes db).1.channel_events := by
  have hevents : (mcy_set_recent_blocks cid first hashes db).1.channel_events =
      db.channel_events.map (fun e =>
        if reorgFlipped cid first hashes e then
          { e with block_is_valid := some (reorgNewValid first hashes e) }
        else e) := rfl
  refine ⟨?_, rfl, rfl, ?_⟩
  · rw [hevents]
    show (db.channel_events.filter (reorgFlipped cid first hashes)).length = _
    rw [filter_zip_map_length _ (reorgFlipped cid first hashes) ?_ db.channel_events]
    intro e
    by_cases hf : reorgFlipped cid first hashes e = true
    · have hval : e.block_is_valid ≠ some (reorgNewValid first hashes e) := by
        have hf' := hf
        unfold reorgFlipped at hf'
        simp only [Bool.and_eq_true, decide_eq_true_eq] at hf'
        exact hf'.2
      rw [if_pos hf, hf]
      simp [hval]
    · rw [Bool.not_eq_true] at hf
      rw [if_neg (show ¬ reorgFlipped cid first hashes e = true by
        rw [hf]; exact Bool.false_ne_true), hf]
      simp
  · rw [hevents]
    rw [List.forall₂_map_right_iff, List.forall₂_same]
    intro e he
    obtain ⟨h, hbh, hlen⟩ := hwf e he
    by_cases hf : reorgFlipped cid first hashes e = true
    · rw [if_pos hf]
      have htouched : reorgTouched cid first e = true := by
        unfold reorgFlipped at hf
        exact (Bool.and_eq_true .. |>.mp hf).1
      have htc : e.chain_id = cid ∧ first ≤ e.block_number := by
        unfold reorgTouched at htouched
        simp only [decide_eq_true_eq] at htouched
        exact ⟨htouched.1, htouched.2.2⟩
      refine ⟨rfl, rfl, rfl, rfl, rfl, rfl, rfl, ?_, ?_⟩
      · intro hnt
        exact absurd htc hnt
      · intro _ h' hbh'
        have hh' : h' = h := by rw [hbh] at hbh'; cases hbh'; rfl
        rw [hh']
        show some (reorgNewValid first hashes e) = some true ↔ _
        rw [← reorgNewValid_iff first hashes e h hbh hlen]
        constructor
        · intro hx
          exact Option.some.inj hx
        · intro hx
          rw [hx]
    · rw [Bool.not_eq_true] at hf
      rw [if_neg (show ¬ reorgFlipped cid first hashes e = true by
        rw [hf]; exact Bool.false_ne_true)]
      refine ⟨rfl, rfl, rfl, rfl, rfl, rfl, rfl, fun _ => rfl, ?_⟩
      intro htc h' hbh'
      have hh' : h' = h := by rw [hbh] at hbh'; cases hbh'; rfl
      rw [hh']
      have htouched : reorgTouched cid first e = true := by
        unfold reorgTouched
        simp only [decide_eq_true_eq]
        exact ⟨htc.1, by rw [hbh]; rfl, htc.2⟩
      have hval : e.block_is_valid = some (reorgNewValid first hashes e) := by
        unfold reorgFlipped at hf
        rw [htouched] at hf
        simp only [Bool.true_and, decide_eq_false_iff_not, Decidable.not_not] at hf
        exact hf
      rw [hval, ← reorgNewValid_iff first hashes e h hbh hlen]
      constructor
      · intro hx
        exact Option.some.inj hx
      · intro hx
        rw [hx]

/-- A valid event on chain 1 at block 5 (C3 witness data). -/
def c3w_event : ChannelEventRow :=
  ⟨1, 1, addr40, hash64, 0, 5, some hash64, some true, "s", .DidDeposit, cexFields⟩

/-- A store holding that single event. -/
def c3w_db : DB := { emptyDB with channel_events := [c3w_event] }

/-- C3 witness: asserting a different hash for block 5 invalidates the
event and reports one updated row. -/
theorem C3_set_recent_blocks_witness :
    (∀ e ∈ c3w_db.channel_events, ∃ h, e.block_hash = some h ∧ h.length = 64) ∧
    ((mcy_set_recent_blocks 1 5 [sig130.take 64] c3w_db).2.1 =
      (((c3w_db.channel_events.zip
          (mcy_set_recent_blocks 1 5 [sig130.take 64] c3w_db).1.channel_events).filter
        (fun q => decide (q.1.block_is_valid ≠ q.2.block_is_valid))).length) ∧
      (mcy_set_recent_blocks 1 5 [sig130.take 64] c3w_db).1.state_updates =
        c3w_db.state_updates ∧
      (mcy_set_recent_blocks 1 5 [sig130.take 64] c3w_db).1.invalid_state_updates =
        c3w_db.invalid_state_updates ∧
      List.Forall₂ (fun e e' =>
        e'.id = e.id ∧ e'.block_hash = e.block_hash ∧ e'.ts = e.ts ∧
        e'.block_number = e.block_number ∧ e'.sender = e.sender ∧
        e'.event_type = e.event_type ∧ e'.fields = e.fields ∧
        (¬ (e.chain_id = 1 ∧ (5 : Int) ≤ e.block_number) → e' = e) ∧
        ((e.chain_id = 1 ∧ (5 : Int) ≤ e.block_number) → ∀ h, e.block_hash = some h →
          (e'.block_is_valid = some true ↔
            [sig130.take 64].get? (e.block_number - 5).toNat = some h)))
        c3w_db.channel_events
        (mcy_set_recent_blocks 1 5 [sig130.take 64] c3w_db).1.channel_events) :=
  ⟨by decide, C3_set_recent_blocks c3w_db 1 5 [sig130.take 64] (by decide)⟩


/-! ### The channel reducer against its specification (claim C1)

The specification-side reducer below is written from the words of the
reducer specification (transition table and error rule), over the channel
attributes the specification names; `mcy_get_channel`'s fold is proved to
refine it. -/

/-- The channel attributes named by the reducer specification. -/
structure ClaimChannel where
  state : Option McyChannelState := none
  sender : Option String := none
  receiver : Option String := none
  settlement_period : Option Int := none
  «until» : Option Int := none
  value : Option Int := none
  payment : Option Int := none
  odd_value : Option Int := none
deriving DecidableEq, Repr

/-- The specification-side view of the code's channel record. -/
def channelView : Option McyChannel → Option ClaimChannel
  | none => none
  | some c =>
      some ⟨c.state, c.sender, c.receiver, c.settlement_period, c.until, c.value,
        c.payment, c.odd_value⟩

/-- The state of a possibly-NULL specification channel. -/
def specState (c? : Option ClaimChannel) : Option McyChannelState :=
  c?.bind (fun c => c.state)

/-- The required state of each event type, per the specification. -/
def specPrecondB (s : Option McyChannelState) : McyChannelEventType → Bool
  | .DidCreateChannel => decide (s = none)
  | .DidDeposit => decide (s = some .CS_OPEN)
  | .DidStartSettle => decide (s = some .CS_OPEN)
  | .DidSettle => decide (s = some .CS_OPEN ∨ s = some .CS_SETTLING)

/-- `<actual-or-NULL>` in the specification's error template. -/
def specActualText (s : Option McyChannelState) : String :=
  (s.map McyChannelState.toText).getD "NULL"

/-- `<expected[ or expected2]>` in the specification's error template. -/
def specExpected : McyChannelEventType → String
  | .DidCreateChannel => "NULL"
  | .DidDeposit => "CS_OPEN"
  | .DidStartSettle => "CS_OPEN"
  | .DidSettle => "CS_OPEN or CS_SETTLING"

/-- The specification's error message, exactly as templated:
`invalid channel state for event <type>: got <actual-or-NULL> but should be
<expected[ or expected2]>`. -/
def specMsg (t : McyChannelEventType) (s : Option McyChannelState) : String :=
  "invalid channel state for event " ++ t.toText ++ ": got " ++ specActualText s ++
    " but should be " ++ specExpected t

/-- The specification's transition table (field mutations per event type). -/
def specApply (c? : Option ClaimChannel) (e : ChannelEventRow) : ClaimChannel :=
  let c := c?.getD {}
  match e.event_type with
  | .DidCreateChannel =>
      { c with
        state := some .CS_OPEN
        sender := some e.fields.sender
        receiver := some e.fields.receiver
        settlement_period := some e.fields.settlement_period
        «until» := some e.fields.until
        value := some e.fields.value }
  | .DidDeposit => { c with value := c.value.map (· + e.fields.value) }
  | .DidStartSettle =>
      { c with
        state := some .CS_SETTLING
        «until» := c.settlement_period.map (fun p => e.ts + p)
        payment := some e.fields.payment }
  | .DidSettle =>
      { c with
        state := some .CS_SETTLED
        payment := some e.fields.payment
        odd_value := some e.fields.odd_value }

/-- Result of the specification-side reducer. -/
structure SpecReduceResult where
  channel : Option ClaimChannel
  is_invalid : Bool
  is_invalid_reason : Option String
deriving DecidableEq, Repr

/-- The specification-side reducer: fold the stream, halting at the first
event whose state precondition is violated, reporting the pre-violation
channel snapshot and the templated reason, and processing no later event. -/
def specReduce (c? : Option ClaimChannel) : List ChannelEventRow → SpecReduceResult
  | [] => ⟨c?, false, none⟩
  | e :: rest =>
      if specPrecondB (specState c?) e.event_type then
        specReduce (some (specApply c? e)) rest
      else
        ⟨c?, true, some (specMsg e.event_type (specState c?))⟩

theorem apply_matches_spec (c? : Option McyChannel) (e : ChannelEventRow) :
    (specPrecondB (specState (channelView c?)) e.event_type = true →
      (mcy_channel_apply_event c? e).is_invalid = false ∧
      (mcy_channel_apply_event c? e).is_invalid_reason = none ∧
      channelView (some (mcy_channel_apply_event c? e).new_channel) =
        some (specApply (channelView c?) e)) ∧
    (specPrecondB (specState (channelView c?)) e.event_type = false →
      (mcy_channel_apply_event c? e).is_invalid = true ∧
      (mcy_channel_apply_event c? e).is_invalid_reason =
        some (specMsg e.event_type (specState (channelView c?)))) := by
  obtain ⟨id, chain, contract, chanid, ts, bn, bh, bv, snd, et, f⟩ := e
  rcases c? with _ | c
  · cases et
    · refine ⟨fun _ => ⟨rfl, rfl, rfl⟩, fun h => ?_⟩
      simp +decide [channelView, specState, specPrecondB] at h
    · refine ⟨fun h => ?_, fun _ => ⟨rfl, rfl⟩⟩
      simp +decide [channelView, specState, specPrecondB] at h
    · refine ⟨fun h => ?_, fun _ => ⟨rfl, rfl⟩⟩
      simp +decide [channelView, specState, specPrecondB] at h
    · refine ⟨fun h => ?_, fun _ => ⟨rfl, rfl⟩⟩
      simp +decide [channelView, specState, specPrecondB] at h
  · rcases hs : c.state with _ | st
    · cases et <;>
        refine ⟨fun h1 => ⟨?_, ?_, ?_⟩, fun h2 => ⟨?_, ?_⟩⟩ <;>
        first
          | (simp +decide [channelView, specState, specPrecondB, hs] at h1
             done)
          | (simp +decide [channelView, specState, specPrecondB, hs] at h2
             done)
          | (simp +decide [mcy_channel_apply_event, mcy_assert_channel_state, hs,
              channelView, specState, specApply, specMsg, specActualText, specExpected,
              McyChannelEventType.toText, McyChannelState.toText, specPrecondB])
    · cases st <;> cases et <;>
        refine ⟨fun h1 => ⟨?_, ?_, ?_⟩, fun h2 => ⟨?_, ?_⟩⟩ <;>
        first
          | (simp +decide [channelView, specState, specPrecondB, hs] at h1
             done)
          | (simp +decide [channelView, specState, specPrecondB, hs] at h2
             done)
          | (simp +decide [mcy_channel_apply_event, mcy_assert_channel_state, hs,
              channelView, specState, specApply, specMsg, specActualText, specExpected,
              McyChannelEventType.toText, McyChannelState.toText, specPrecondB])

theorem loop_matches_spec : ∀ (evs : List ChannelEventRow) (res : McyGetChannelResult),
    res.is_invalid ≠ some true → res.is_invalid_reason = none →
    channelView (mcy_get_channel_loop res evs).channel =
      (specReduce (channelView res.channel) evs).channel ∧
    ((mcy_get_channel_loop res evs).is_invalid = some true ↔
      (specReduce (channelView res.channel) evs).is_invalid = true) ∧
    ((specReduce (channelView res.channel) evs).is_invalid = true →
      (mcy_get_channel_loop res evs).is_invalid_reason =
        (specReduce (channelView res.channel) evs).is_invalid_reason) ∧
    ((specReduce (channelView res.channel) evs).is_invalid = false →
      (mcy_get_channel_loop res evs).is_invalid_reason = none) := by
  intro evs
  induction evs with
  | nil =>
    intro res hinv hreason
    refine ⟨rfl, ⟨fun h => absurd h hinv, fun h => absurd h Bool.false_ne_true⟩,
      fun h => absurd h Bool.false_ne_true, fun _ => hreason⟩
  | cons e rest ih =>
    intro res hinv hreason
    obtain ⟨hpos, hneg⟩ := apply_matches_spec res.channel e
    by_cases hpre : specPrecondB (specState (channelView res.channel)) e.event_type = true
    · obtain ⟨hai, har, hview⟩ := hpos hpre
      have hunfold : mcy_get_channel_loop res (e :: rest) =
          mcy_get_channel_loop
            { channel := some (mcy_channel_apply_event res.channel e).new_channel
              latest_intent_event :=
                if e.block_hash.isNone then some e else res.latest_intent_event
              latest_chain_event :=
                if e.block_hash.isNone then res.latest_chain_event else some e
              latest_event := some e
              is_invalid := some (mcy_channel_apply_event res.channel e).is_invalid
              is_invalid_reason := (mcy_channel_apply_event res.channel e).is_invalid_reason }
            rest := by
        show (if (mcy_channel_apply_event res.channel e).is_invalid = true then _ else _) = _
        rw [if_neg (by rw [hai]; exact Bool.false_ne_true)]
      have hspec : specReduce (channelView res.channel) (e :: rest) =
          specReduce (some (specApply (channelView res.channel) e)) rest := by
        show (if specPrecondB (specState (channelView res.channel)) e.event_type = true
          then _ else _) = _
        rw [if_pos hpre]
      rw [hunfold, hspec]
      have harel := ih
        { channel := some (mcy_channel_apply_event res.channel e).new_channel
          latest_intent_event :=
            if e.block_hash.isNone then some e else res.latest_intent_event
          latest_chain_event :=
            if e.block_hash.isNone then res.latest_chain_event else some e
          latest_event := some e
          is_invalid := some (mcy_channel_apply_event res.channel e).is_invalid
          is_invalid_reason := (mcy_channel_apply_event res.channel e).is_invalid_reason }
        (by
          show some (mcy_channel_apply_event res.channel e).is_invalid ≠ some true
          rw [hai]
          simp)
        har
      dsimp only at harel
      rw [hview] at harel
      exact harel
    · rw [Bool.not_eq_true] at hpre
      obtain ⟨hai, har⟩ := hneg hpre
      have hunfold : mcy_get_channel_loop res (e :: rest) =
          { channel := res.channel
            latest_intent_event :=
              if e.block_hash.isNone then some e else res.latest_intent_event
            latest_chain_event :=
              if e.block_hash.isNone then res.latest_chain_event else some e
            latest_event := some e
            is_invalid := some (mcy_channel_apply_event res.channel e).is_invalid
            is_invalid_reason := (mcy_channel_apply_event res.channel e).is_invalid_reason } := by
        show (if (mcy_channel_apply_event res.channel e).is_invalid = true then _ else _) = _
        rw [if_pos hai]
      have hspec : specReduce (channelView res.channel) (e :: rest) =
          ⟨channelView res.channel, true,
            some (specMsg e.event_type (specState (channelView res.channel)))⟩ := by
        show (if specPrecondB (specState (channelView res.channel)) e.event_type = true
          then _ else _) = _
        rw [if_neg (by rw [hpre]; exact Bool.false_ne_true)]
      rw [hunfold, hspec]
      refine ⟨rfl, ?_, fun _ => ?_, fun hcontra => ?_⟩
      · show some (mcy_channel_apply_event res.channel e).is_invalid = some true ↔ true = true
        rw [hai]
        simp
      · exact har
      · exact Bool.noConfusion hcontra

/-- C1: the channel reducer (`mcy_get_channel_core`, i.e. `mcy_get_channel`'s
fold of `mcy_channel_apply_event` from an initial null channel) refines the
specification's reducer `specReduce` (transition table, templated error
message, pre-violation snapshot); and at the first invalid event the fold
halts: the offending event is not applied (the channel keeps the snapshot
from before it) and later events are not processed at all. -/
theorem C1_reducer :
    (∀ evs : List ChannelEventRow,
      channelView (mcy_get_channel_core evs).channel = (specReduce none evs).channel ∧
      ((mcy_get_channel_core evs).is_invalid = some true ↔
        (specReduce none evs).is_invalid = true) ∧
      ((specReduce none evs).is_invalid = true →
        (mcy_get_channel_core evs).is_invalid_reason =
          (specReduce none evs).is_invalid_reason) ∧
      ((specReduce none evs).is_invalid = false →
        (mcy_get_channel_core evs).is_invalid_reason = none)) ∧
    (∀ (res : McyGetChannelResult) (e : ChannelEventRow) (rest : List ChannelEventRow),
      (mcy_channel_apply_event res.channel e).is_invalid = true →
      mcy_get_channel_loop res (e :: rest) =
        { res with
          latest_event := some e
          latest_intent_event :=
            if e.block_hash.isNone then some e else res.latest_intent_event
          latest_chain_event :=
            if e.block_hash.isNone then res.latest_chain_event else some e
          is_invalid := some true
          is_invalid_reason := (mcy_channel_apply_event res.channel e).is_invalid_reason }) := by
  constructor
  · intro evs
    exact loop_matches_spec evs {} (by simp) rfl
  · intro res e rest h
    show (if (mcy_channel_apply_event res.channel e).is_invalid = true then _ else _) = _
    rw [if_pos h, h]

/-- First event of the C1 witness scenario: a deposit on a never-created
channel (precondition violated: got NULL but should be CS_OPEN). -/
def c1w_e : ChannelEventRow :=
  ⟨1, 1, "c", "a", 0, 1, some "h1", some true, "s", .DidDeposit, cexFields⟩

/-- A later event that must not be processed after the violation. -/
def c1w_e2 : ChannelEventRow :=
  ⟨2, 1, "c", "a", 1, 2, some "h2", some true, "s", .DidDeposit, cexFields⟩

/-- C1 witness: the spec reducer flags the deposit-on-NULL stream, the code
reports the same templated reason, and the fold halts with the pre-event
snapshot without processing the later event. -/
theorem C1_reducer_witness :
    ((specReduce none [c1w_e]).is_invalid = true ∧
      (mcy_get_channel_core [c1w_e]).is_invalid_reason =
        (specReduce none [c1w_e]).is_invalid_reason) ∧
    ((mcy_channel_apply_event ({} : McyGetChannelResult).channel c1w_e).is_invalid = true ∧
      mcy_get_channel_loop {} (c1w_e :: [c1w_e2]) =
        { ({} : McyGetChannelResult) with
          latest_event := some c1w_e
          latest_intent_event :=
            if c1w_e.block_hash.isNone then some c1w_e
            else ({} : McyGetChannelResult).latest_intent_event
          latest_chain_event :=
            if c1w_e.block_hash.isNone then ({} : McyGetChannelResult).latest_chain_event
            else some c1w_e
          is_invalid := some true
          is_invalid_reason :=
            (mcy_channel_apply_event ({} : McyGetChannelResult).channel
              c1w_e).is_invalid_reason }) :=
  ⟨⟨by decide, (C1_reducer.1 [c1w_e]).2.2.1 (by decide)⟩,
   ⟨by decide, C1_reducer.2 {} c1w_e [c1w_e2] (by decide)⟩⟩


/-! ### Intent-correlation invariant (claim C2) -/

/-- The write operations the correlation engine reacts to. -/
inductive WriteOp
  | insertEvent (e : ChannelEventInput)
  | insertIntent (i : ChannelIntentInput)
  | setRecentBlocks (chain_id first_block_num : Int) (hashes : List String)

/-- The store after one completed write operation. -/
def applyWrite : WriteOp → DB → DB
  | .insertEvent e, db => (mcy_insert_channel_event e db).1
  | .insertIntent i, db => (mcy_insert_channel_intent i db).1
  | .setRecentBlocks c f hs, db => (mcy_set_recent_blocks c f hs db).1

/-- The §4.3 correlation invariant: every intent's `block_hash` equals
`mcy_get_intent_block_hash` — the hash of the most recently inserted valid
matching chain event, or null. -/
def IntentInv (db : DB) : Prop :=
  ∀ I ∈ db.channel_intents, I.block_hash = mcy_get_intent_block_hash db I

/-- Schema invariant: `bigserial` event ids stay below the sequence
counter. -/
def EventIdsBounded (db : DB) : Prop :=
  ∀ e ∈ db.channel_events, e.id < db.next_event_id

instance (db : DB) : Decidable (IntentInv db) := by
  unfold IntentInv
  infer_instance

instance (db : DB) : Decidable (EventIdsBounded db) := by
  unfold EventIdsBounded
  infer_instance

theorem maxIdRow_mem : ∀ (l : List ChannelEventRow) (r : ChannelEventRow),
    maxIdRow l = some r → r ∈ l := by
  have key : ∀ (l : List ChannelEventRow) (acc : Option ChannelEventRow)
      (r : ChannelEventRow),
      l.foldl (fun acc e =>
        match acc with
        | none => some e
        | some a => if a.id < e.id then some e else acc) acc = some r →
      acc = some r ∨ r ∈ l := by
    intro l
    induction l with
    | nil => intro acc r h; exact Or.inl h
    | cons x t ih =>
      intro acc r h
      rcases ih _ r h with hacc | hmem
      · match acc, hacc with
        | none, hacc =>
          have hacc' : some x = some r := hacc
          exact Or.inr (by cases hacc'; exact List.mem_cons_self ..)
        | some a, hacc =>
          have hacc' : (if a.id < x.id then some x else some a) = some r := hacc
          by_cases hlt : a.id < x.id
          · rw [if_pos hlt] at hacc'
            exact Or.inr (by cases hacc'; exact List.mem_cons_self ..)
          · rw [if_neg hlt] at hacc'
            exact Or.inl hacc'
      · exact Or.inr (List.mem_cons_of_mem _ hmem)
  intro l r h
  rcases key l none r h with hacc | hmem
  · cases hacc
  · exact hmem

theorem maxIdRow_append_max (l : List ChannelEventRow) (r : ChannelEventRow)
    (hmax : ∀ x ∈ l, x.id < r.id) :
    maxIdRow (l ++ [r]) = some r := by
  unfold maxIdRow
  rw [List.foldl_append]
  rcases hfold : l.foldl (fun acc e =>
      match acc with
      | none => some e
      | some a => if a.id < e.id then some e else acc) none with _ | a
  · rw [hfold]
    rfl
  · rw [hfold]
    have ha : a ∈ l := maxIdRow_mem l a hfold
    show (if a.id < r.id then some r else some a) = some r
    rw [if_pos (hmax a ha)]

theorem filter_append_one {α : Type} (p : α → Bool) (l : List α) (x : α) :
    (l ++ [x]).filter p = l.filter p ++ if p x then [x] else [] := by
  rw [List.filter_append]
  congr 1
  by_cases hp : p x
  · simp [hp, List.filter]
  · simp [hp, List.filter]

theorem filter_map_flip_eq (I : ChannelEventRow) (flip nv : ChannelEventRow → Bool) :
    ∀ l : List ChannelEventRow,
    (∀ o ∈ l, ¬ (flip o = true ∧ intentMatches I o = true)) →
    (l.map (fun e => if flip e then { e with block_is_valid := some (nv e) } else e)).filter
      (fun ce => intentMatches I ce && ce.block_is_valid.getD false) =
    l.filter (fun ce => intentMatches I ce && ce.block_is_valid.getD false) := by
  intro l
  induction l with
  | nil => intro _; rfl
  | cons o t ih =>
    intro hno
    have hno' : ∀ x ∈ t, ¬ (flip x = true ∧ intentMatches I x = true) :=
      fun x hx => hno x (List.mem_cons_of_mem _ hx)
    show (((if flip o then { o with block_is_valid := some (nv o) } else o) ::
        t.map _).filter _) = _
    by_cases hf : flip o = true
    · have hm : intentMatches I o = false := by
        rcases hmm : intentMatches I o with _ | _
        · rfl
        · exact absurd ⟨hf, hmm⟩ (hno o (List.mem_cons_self ..))
      rw [if_pos hf, List.filter_cons, List.filter_cons]
      have hq1 : (intentMatches I { o with block_is_valid := some (nv o) } &&
          ({ o with block_is_valid := some (nv o) } :
            ChannelEventRow).block_is_valid.getD false) = false := by
        have hIm : intentMatches I { o with block_is_valid := some (nv o) } =
            intentMatches I o := rfl
        rw [hIm, hm, Bool.false_and]
      have hq2 : (intentMatches I o && o.block_is_valid.getD false) = false := by
        rw [hm, Bool.false_and]
      rw [hq1, hq2]
      simp only [Bool.false_eq_true, if_false]
      exact ih hno'
    · rw [if_neg hf, List.filter_cons, List.filter_cons]
      by_cases hq : (intentMatches I o && o.block_is_valid.getD false) = true
      · rw [hq, ih hno']
      · rw [Bool.not_eq_true] at hq
        rw [hq]
        simp only [Bool.false_eq_true, if_false]
        exact ih hno'

/-- C2: the correlation invariant holds on the fresh store, and every write
operation — chain-event insert (trigger `INSERT` branch), intent insert
(correlate-on-insert), and `set_recent_blocks` (trigger `UPDATE` branch
recomputation) — preserves it (together with the id-bound schema
invariant). -/
theorem C2_intent_correlation :
    (IntentInv emptyDB ∧ EventIdsBounded emptyDB) ∧
    ∀ (db : DB) (op : WriteOp), EventIdsBounded db → IntentInv db →
      IntentInv (applyWrite op db) ∧ EventIdsBounded (applyWrite op db) := by
  constructor
  · exact ⟨(fun I hI => nomatch hI), (fun e he => nomatch he)⟩
  intro db op hWF hInv
  rcases op with e | i | ⟨cid, first, hashes⟩
  · -- insertEvent
    constructor
    · intro I' hI'
      obtain ⟨I, hI, hmap⟩ := List.mem_map.mp hI'
      set row : ChannelEventRow :=
        { id := db.next_event_id
          chain_id := e.chain_id
          contract_id := e.contract_id
          channel_id := e.channel_id
          ts := e.ts
          block_number := e.block_number
          block_hash := some e.block_hash
          block_is_valid := some true
          sender := e.sender
          event_type := e.event_type
          fields := e.fields } with hrow
      by_cases hm : intentMatches I row = true
      · rw [if_pos hm] at hmap
        subst hmap
        show some e.block_hash = mcy_get_intent_block_hash (applyWrite (.insertEvent e) db)
          { I with block_hash := some e.block_hash }
        have hpred : ∀ ce, (intentMatches { I with block_hash := some e.block_hash } ce &&
            ce.block_is_valid.getD false) = (intentMatches I ce && ce.block_is_valid.getD false) :=
          fun ce => rfl
        show some e.block_hash =
          (maxIdRow ((db.channel_events ++ [row]).filter
            (fun ce => intentMatches { I with block_hash := some e.block_hash } ce &&
              ce.block_is_valid.getD false))).bind (fun r => r.block_hash)
        have hfeq : (db.channel_events ++ [row]).filter
            (fun ce => intentMatches { I with block_hash := some e.block_hash } ce &&
              ce.block_is_valid.getD false) =
            db.channel_events.filter
              (fun ce => intentMatches I ce && ce.block_is_valid.getD false) ++ [row] := by
          have h1 : (fun ce => intentMatches { I with block_hash := some e.block_hash } ce &&
              ce.block_is_valid.getD false) =
              (fun ce => intentMatches I ce && ce.block_is_valid.getD false) := by
            funext ce
            rfl
          rw [h1, filter_append_one]
          rw [if_pos (by rw [show (intentMatches I row && row.block_is_valid.getD false) =
            intentMatches I row from by rw [Bool.and_comm]; rfl, hm])]
        rw [hfeq, maxIdRow_append_max]
        · rfl
        · intro x hx
          have hx' := List.mem_filter.mp hx
          exact hWF x hx'.1
      · rw [Bool.not_eq_true] at hm
        rw [if_neg (by rw [hm]; exact Bool.false_ne_true)] at hmap
        subst hmap
        show I.block_hash = mcy_get_intent_block_hash (applyWrite (.insertEvent e) db) I
        have hfeq : (db.channel_events ++ [row]).filter
            (fun ce => intentMatches I ce && ce.block_is_valid.getD false) =
            db.channel_events.filter
              (fun ce => intentMatches I ce && ce.block_is_valid.getD false) := by
          rw [filter_append_one]
          rw [if_neg (by rw [show (intentMatches I row && row.block_is_valid.getD false) =
            intentMatches I row from by rw [Bool.and_comm]; rfl, hm]; exact Bool.false_ne_true)]
          rw [List.append_nil]
        show I.block_hash =
          (maxIdRow ((db.channel_events ++ [row]).filter
            (fun ce => intentMatches I ce && ce.block_is_valid.getD false))).bind
            (fun r => r.block_hash)
        rw [hfeq]
        exact hInv I hI
    · intro x hx
      rcases List.mem_append.mp hx with hold | hnew
      · show x.id < db.next_event_id + 1
        exact Nat.lt_succ_of_lt (hWF x hold)
      · have hx' : x = _ := List.eq_of_mem_singleton hnew
        subst hx'
        show db.next_event_id < db.next_event_id + 1
        omega
  · -- insertIntent
    constructor
    · intro I hI
      rcases List.mem_append.mp hI with hold | hnew
      · exact hInv I hold
      · have hx' : I = _ := List.eq_of_mem_singleton hnew
        subst hx'
        rfl
    · exact fun x hx => hWF x hx
  · -- setRecentBlocks
    constructor
    · intro I' hI'
      obtain ⟨I, hI, hmap⟩ := List.mem_map.mp hI'
      by_cases hm : (db.channel_events.any
          (fun o => reorgFlipped cid first hashes o && intentMatches I o)) = true
      · rw [if_pos hm] at hmap
        subst hmap
        rfl
      · rw [Bool.not_eq_true] at hm
        rw [if_neg (by rw [hm]; exact Bool.false_ne_true)] at hmap
        subst hmap
        have hno : ∀ o ∈ db.channel_events,
            ¬ (reorgFlipped cid first hashes o = true ∧ intentMatches I o = true) := by
          intro o ho hcontra
          have : (db.channel_events.any
              (fun o => reorgFlipped cid first hashes o && intentMatches I o)) = true :=
            List.any_eq_true.mpr ⟨o, ho, by rw [hcontra.1, hcontra.2]; rfl⟩
          rw [hm] at this
          exact Bool.noConfusion this
        show I.block_hash =
          (maxIdRow ((db.channel_events.map (fun e =>
            if reorgFlipped cid first hashes e then
              { e with block_is_valid := some (reorgNewValid first hashes e) }
            else e)).filter
            (fun ce => intentMatches I ce && ce.block_is_valid.getD false))).bind
            (fun r => r.block_hash)
        rw [filter_map_flip_eq I (reorgFlipped cid first hashes)
          (reorgNewValid first hashes) db.channel_events hno]
        exact hInv I hI
    · intro x hx
      obtain ⟨o, ho, hmap⟩ := List.mem_map.mp hx
      by_cases hf : reorgFlipped cid first hashes o = true
      · rw [if_pos hf] at hmap
        subst hmap
        exact hWF o ho
      · rw [Bool.not_eq_true] at hf
        rw [if_neg (by rw [hf]; exact Bool.false_ne_true)] at hmap
        subst hmap
        exact hWF o ho

/-- A concrete intent matching the witness event (block floor 1). -/
def c2w_intent : ChannelIntentInput :=
  ⟨1, addr40, hash64, 1, "s", .DidDeposit, cexFields⟩

/-- A concrete chain event at block 2 matching the intent. -/
def c2w_event : ChannelEventInput :=
  ⟨1, addr40, hash64, 7, hash64, 2, "s", .DidDeposit, cexFields⟩

/-- C2 witness: starting from the fresh store, inserting the intent and then
the matching chain event preserves the correlation invariant at every step
(the intent's hash ends up equal to the chain event's). -/
theorem C2_intent_correlation_witness :
    EventIdsBounded (applyWrite (.insertIntent c2w_intent) emptyDB) ∧
    IntentInv (applyWrite (.insertIntent c2w_intent) emptyDB) ∧
    IntentInv (applyWrite (.insertEvent c2w_event)
      (applyWrite (.insertIntent c2w_intent) emptyDB)) :=
  ⟨by decide, by decide,
    (C2_intent_correlation.2 (applyWrite (.insertIntent c2w_intent) emptyDB)
      (.insertEvent c2w_event) (by decide) (by decide)).1⟩


/-! ### Order-equivalence of insertion (claim C6) -/

/-- The content of an event row without its insertion-assigned id. -/
structure ChannelEventData where
  chain_id : Int
  contract_id : String
  channel_id : String
  ts : Int
  block_number : Int
  block_hash : Option String
  block_is_valid : Option Bool
  sender : String
  event_type : McyChannelEventType
  fields : EventFields
deriving DecidableEq, Repr

/-- Strip the id off a row. -/
def ChannelEventRow.data (e : ChannelEventRow) : ChannelEventData :=
  ⟨e.chain_id, e.contract_id, e.channel_id, e.ts, e.block_number, e.block_hash,
    e.block_is_valid, e.sender, e.event_type, e.fields⟩

/-- The canonical sort key of stripped row content. -/
def ChannelEventData.sortKeyD (d : ChannelEventData) :
    Lex (Int × Lex (Lex (Bool × String) × Int)) :=
  toLex (d.block_number, toLex (hashSortKey d.block_hash, d.ts))

/-- The canonical sort key of a chain-event input. -/
def ChannelEventInput.inputKey (e : ChannelEventInput) :
    Lex (Int × Lex (Lex (Bool × String) × Int)) :=
  toLex (e.block_number, toLex (hashSortKey (some e.block_hash), e.ts))

/-- The row stored for a chain-event input, given its assigned id. -/
def rowOf (n : Nat) (e : ChannelEventInput) : ChannelEventRow :=
  { id := n
    chain_id := e.chain_id
    contract_id := e.contract_id
    channel_id := e.channel_id
    ts := e.ts
    block_number := e.block_number
    block_hash := some e.block_hash
    block_is_valid := some true
    sender := e.sender
    event_type := e.event_type
    fields := e.fields }

/-- The rows stored for a list of inputs inserted in order, ids from `n`. -/
def mkRows (n : Nat) : List ChannelEventInput → List ChannelEventRow
  | [] => []
  | e :: t => rowOf n e :: mkRows (n + 1) t

/-- Insert a list of chain events in order. -/
def insertAll (l : List ChannelEventInput) (db : DB) : DB :=
  l.foldl (fun d e => (mcy_insert_channel_event e d).1) db

/-- The channel record without its insertion-assigned row ids. -/
def stripChannel (c : McyChannel) : McyChannel :=
  { c with last_state_id := none, last_event_id := none }

/-- The reducer result up to insertion-assigned ids. -/
def stripRes (r : McyGetChannelResult) :
    Option McyChannel × Option ChannelEventData × Option ChannelEventData ×
      Option ChannelEventData × Option Bool × Option String :=
  (r.channel.map stripChannel, r.latest_intent_event.map ChannelEventRow.data,
    r.latest_chain_event.map ChannelEventRow.data,
    r.latest_event.map ChannelEventRow.data, r.is_invalid, r.is_invalid_reason)

/-- The channel status up to insertion-assigned ids. -/
def stripStatus (st : ChannelStatus) :
    Option McyChannel × Option StateUpdateRow × Option Int × Option Int ×
      Option ChannelEventData × Option ChannelEventData × Option ChannelEventData ×
      Option Bool × Option String :=
  (st.channel.map stripChannel, st.latest_state, st.current_payment,
    st.current_remaining_balance, st.latest_event.map ChannelEventRow.data,
    st.latest_intent_event.map ChannelEventRow.data,
    st.latest_chain_event.map ChannelEventRow.data, st.is_invalid, st.is_invalid_reason)

theorem insertAll_characterization : ∀ (l : List ChannelEventInput) (db : DB),
    db.channel_intents = [] →
    (insertAll l db).channel_events = db.channel_events ++ mkRows db.next_event_id l ∧
    (insertAll l db).channel_intents = [] ∧
    (insertAll l db).state_updates = db.state_updates := by
  intro l
  induction l with
  | nil =>
    intro db hint
    exact ⟨(List.append_nil _).symm, hint, rfl⟩
  | cons e t ih =>
    intro db hint
    have hstep : insertAll (e :: t) db = insertAll t (mcy_insert_channel_event e db).1 := rfl
    have hint1 : (mcy_insert_channel_event e db).1.channel_intents = [] := by
      show db.channel_intents.map _ = []
      rw [hint]
      rfl
    obtain ⟨h1, h2, h3⟩ := ih (mcy_insert_channel_event e db).1 hint1
    rw [hstep]
    refine ⟨?_, h2, h3⟩
    rw [h1]
    show (db.channel_events ++ [rowOf db.next_event_id e]) ++
      mkRows (db.next_event_id + 1) t = _
    rw [List.append_assoc]
    rfl

theorem mkRows_map_data : ∀ (l : List ChannelEventInput) (n : Nat),
    (mkRows n l).map ChannelEventRow.data =
      l.map (fun e => (rowOf 0 e).data) := by
  intro l
  induction l with
  | nil => intro n; rfl
  | cons e t ih =>
    intro n
    show (rowOf n e).data :: (mkRows (n + 1) t).map ChannelEventRow.data = _
    rw [ih (n + 1)]
    rfl

theorem mkRows_map_key : ∀ (l : List ChannelEventInput) (n : Nat),
    (mkRows n l).map ChannelEventRow.sortKey = l.map ChannelEventInput.inputKey := by
  intro l
  induction l with
  | nil => intro n; rfl
  | cons e t ih =>
    intro n
    show (rowOf n e).sortKey :: (mkRows (n + 1) t).map ChannelEventRow.sortKey = _
    rw [ih (n + 1)]
    rfl

theorem map_filter_comm {α β : Type} (f : α → β) (p : α → Bool) (pd : β → Bool)
    (hp : ∀ a, p a = pd (f a)) :
    ∀ l : List α, (l.filter p).map f = (l.map f).filter pd := by
  intro l
  induction l with
  | nil => rfl
  | cons a t ih =>
    rw [List.map_cons, List.filter_cons, List.filter_cons, ← hp a]
    by_cases hpa : p a = true
    · rw [if_pos hpa, if_pos hpa, List.map_cons, ih]
    · rw [if_neg hpa, if_neg hpa, ih]

theorem eq_of_perm_sorted_keys {α K : Type} [LinearOrder K] (key : α → K) :
    ∀ (l₁ l₂ : List α), List.Perm l₁ l₂ → l₁.Sorted (fun a b => key a ≤ key b) →
      l₂.Sorted (fun a b => key a ≤ key b) → (l₁.map key).Nodup → l₁ = l₂ := by
  intro l₁
  induction l₁ with
  | nil =>
    intro l₂ hperm _ _ _
    exact (List.Perm.nil_eq hperm).symm ▸ rfl
  | cons a t₁ ih =>
    intro l₂ hperm hs₁ hs₂ hnd
    rcases l₂ with _ | ⟨b, t₂⟩
    · exact absurd hperm.symm (by simp)
    by_cases hab : a = b
    · subst hab
      have hperm' := hperm.cons_inv
      have hnd2 : (key a :: t₁.map key).Nodup := by rw [List.map_cons] at hnd; exact hnd
      have := ih t₂ hperm' (List.sorted_cons.mp hs₁).2 (List.sorted_cons.mp hs₂).2
        (List.nodup_cons.mp hnd2).2
      rw [this]
    · have hat2 : a ∈ t₂ := by
        have := hperm.subset (List.mem_cons_self ..)
        rcases List.mem_cons.mp this with h | h
        · exact absurd h hab
        · exact h
      have hbt1 : b ∈ t₁ := by
        have := hperm.symm.subset (List.mem_cons_self ..)
        rcases List.mem_cons.mp this with h | h
        · exact absurd h.symm hab
        · exact h
      have hba : key b ≤ key a := (List.sorted_cons.mp hs₂).1 a hat2
      have hab' : key a ≤ key b := (List.sorted_cons.mp hs₁).1 b hbt1
      have hkeq : key a = key b := le_antisymm hab' hba
      have hnd2 : (key a :: t₁.map key).Nodup := by rw [List.map_cons] at hnd; exact hnd
      have hnd' := List.nodup_cons.mp hnd2
      exact absurd (hkeq ▸ List.mem_map_of_mem key hbt1) hnd'.1


theorem apply_strip_congr (c₁ c₂ : Option McyChannel) (e₁ e₂ : ChannelEventRow)
    (hc : c₁.map stripChannel = c₂.map stripChannel) (he : e₁.data = e₂.data) :
    (mcy_channel_apply_event c₁ e₁).is_invalid = (mcy_channel_apply_event c₂ e₂).is_invalid ∧
      (mcy_channel_apply_event c₁ e₁).is_invalid_reason =
        (mcy_channel_apply_event c₂ e₂).is_invalid_reason ∧
      stripChannel (mcy_channel_apply_event c₁ e₁).new_channel =
        stripChannel (mcy_channel_apply_event c₂ e₂).new_channel := by
  obtain ⟨i₁, a₁, b₁, d₁, t₁, n₁, h₁, v₁, s₁, y₁, f₁⟩ := e₁
  obtain ⟨i₂, a₂, b₂, d₂, t₂, n₂, h₂, v₂, s₂, y₂, f₂⟩ := e₂
  simp only [ChannelEventRow.data, ChannelEventData.mk.injEq] at he
  obtain ⟨ha, hb, hd, ht, hn, hh, hv, hs, hy, hf⟩ := he
  subst ha hb hd ht hn hh hv hs hy hf
  cases c₁ with
  | none =>
    cases c₂ with
    | none =>
      cases y₁ <;>
        simp [mcy_channel_apply_event, stripChannel, mcy_assert_channel_state]
    | some c => simp at hc
  | some c =>
    cases c₂ with
    | none => simp at hc
    | some c' =>
      simp only [Option.map_some', Option.some.injEq] at hc
      obtain ⟨k₁, k₂, k₃, k₄, k₅, k₆, k₇, k₈, k₉, k₁₀, k₁₁, k₁₂, k₁₃, k₁₄, k₁₅, k₁₆, k₁₇⟩ := c
      obtain ⟨m₁, m₂, m₃, m₄, m₅, m₆, m₇, m₈, m₉, m₁₀, m₁₁, m₁₂, m₁₃, m₁₄, m₁₅, m₁₆, m₁₇⟩ := c'
      simp only [stripChannel, McyChannel.mk.injEq, and_true, true_and] at hc
      obtain ⟨q₁, q₂, q₃, q₆, q₇, q₈, q₉, q₁₀, q₁₁, q₁₂, q₁₃, q₁₄, q₁₅, q₁₆, q₁₇⟩ := hc
      subst q₁ q₂ q₃ q₆ q₇ q₈ q₉ q₁₀ q₁₁ q₁₂ q₁₃ q₁₄ q₁₅ q₁₆ q₁₇
      cases y₁ <;>
        simp [mcy_channel_apply_event, stripChannel, mcy_assert_channel_state]

theorem loop_strip_congr : ∀ (l₁ l₂ : List ChannelEventRow) (r₁ r₂ : McyGetChannelResult),
    l₁.map ChannelEventRow.data = l₂.map ChannelEventRow.data →
    stripRes r₁ = stripRes r₂ →
    stripRes (mcy_get_channel_loop r₁ l₁) = stripRes (mcy_get_channel_loop r₂ l₂) := by
  intro l₁
  induction l₁ with
  | nil =>
    intro l₂ r₁ r₂ hmap hres
    have hnil : l₂ = [] := by
      cases l₂ with
      | nil => rfl
      | cons e t => exact absurd hmap (by simp)
    subst hnil
    exact hres
  | cons e₁ t₁ ih =>
    intro l₂ r₁ r₂ hmap hres
    cases l₂ with
    | nil => exact absurd hmap (by simp)
    | cons e₂ t₂ =>
      simp only [List.map_cons, List.cons.injEq] at hmap
      obtain ⟨he, ht⟩ := hmap
      simp only [stripRes, Prod.mk.injEq] at hres
      obtain ⟨hch, hi, hce, _, _, _⟩ := hres
      have hbh : e₁.block_hash = e₂.block_hash := congrArg ChannelEventData.block_hash he
      obtain ⟨hai, har, han⟩ := apply_strip_congr r₁.channel r₂.channel e₁ e₂ hch he
      simp only [mcy_get_channel_loop]
      by_cases hinv1 : (mcy_channel_apply_event r₁.channel e₁).is_invalid = true
      · rw [if_pos hinv1, if_pos (hai.symm.trans hinv1)]
        simp only [stripRes, Prod.mk.injEq]
        refine ⟨hch, ?_, ?_, by simp [he], by rw [hai], har⟩
        · rw [hbh]
          by_cases hnb : e₂.block_hash.isNone = true
          · rw [if_pos hnb, if_pos hnb]
            simp [he]
          · rw [if_neg hnb, if_neg hnb]
            exact hi
        · rw [hbh]
          by_cases hnb : e₂.block_hash.isNone = true
          · rw [if_pos hnb, if_pos hnb]
            exact hce
          · rw [if_neg hnb, if_neg hnb]
            simp [he]
      · rw [if_neg hinv1, if_neg (fun hcl => hinv1 (hai.trans hcl))]
        apply ih t₂ _ _ ht
        simp only [stripRes, Prod.mk.injEq]
        refine ⟨by simp [han], ?_, ?_, by simp [he], by rw [hai], har⟩
        · rw [hbh]
          by_cases hnb : e₂.block_hash.isNone = true
          · rw [if_pos hnb, if_pos hnb]
            simp [he]
          · rw [if_neg hnb, if_neg hnb]
            exact hi
        · rw [hbh]
          by_cases hnb : e₂.block_hash.isNone = true
          · rw [if_pos hnb, if_pos hnb]
            exact hce
          · rw [if_neg hnb, if_neg hnb]
            simp [he]


/-- The channel-key filter on stripped row content. -/
def sameChannelD (chan : ChanKey) (d : ChannelEventData) : Bool :=
  decide (d.chain_id = chan.chain_id ∧ d.contract_id = chan.contract_id ∧
    d.channel_id = chan.channel_id)

/-- The chain-event filter of `mcy_get_channel_events` on stripped content. -/
def validD (chan : ChanKey) (d : ChannelEventData) : Bool :=
  sameChannelD chan d && d.block_is_valid.getD false

theorem sqlSub_none (x : Option Int) : sqlSub x none = none := by
  cases x <;> rfl

theorem events_after_insertAll (chan : ChanKey) (inc : Bool) :
    ∀ l : List ChannelEventInput,
      mcy_get_channel_events (insertAll l emptyDB) chan inc =
        List.insertionSort rowle
          ((mkRows 1 l).filter fun e => sameChannel chan e && (e.block_is_valid.getD false)) := by
  intro l
  obtain ⟨hev, hint, _⟩ := insertAll_characterization l emptyDB rfl
  rw [mcy_get_channel_events, hev, hint]
  simp only [emptyDB]
  rw [List.filter_nil, List.append_nil, List.nil_append]

theorem latest_none_after_insertAll (chan : ChanKey) :
    ∀ l : List ChannelEventInput,
      mcy_get_latest_state_update (insertAll l emptyDB) chan = none := by
  intro l
  obtain ⟨_, _, hsu⟩ := insertAll_characterization l emptyDB rfl
  rw [mcy_get_latest_state_update, hsu]
  rfl

theorem sortKeyD_comp_data :
    ChannelEventData.sortKeyD ∘ ChannelEventRow.data = ChannelEventRow.sortKey := by
  funext e
  rfl

theorem events_map_data_eq (chan : ChanKey) (inc : Bool)
    (l₁ l₂ : List ChannelEventInput) (hperm : List.Perm l₁ l₂)
    (hnd : (l₁.map ChannelEventInput.inputKey).Nodup) :
    (mcy_get_channel_events (insertAll l₁ emptyDB) chan inc).map ChannelEventRow.data =
      (mcy_get_channel_events (insertAll l₂ emptyDB) chan inc).map ChannelEventRow.data := by
  apply eq_of_perm_sorted_keys ChannelEventData.sortKeyD
  · rw [events_after_insertAll chan inc l₁, events_after_insertAll chan inc l₂]
    refine List.Perm.trans (List.Perm.map _ (List.perm_insertionSort _ _)) ?_
    refine List.Perm.trans ?_ (List.Perm.map _ (List.perm_insertionSort _ _)).symm
    rw [map_filter_comm ChannelEventRow.data
          (fun e => sameChannel chan e && e.block_is_valid.getD false)
          (validD chan) (fun e => rfl),
        map_filter_comm ChannelEventRow.data
          (fun e => sameChannel chan e && e.block_is_valid.getD false)
          (validD chan) (fun e => rfl),
        mkRows_map_data, mkRows_map_data]
    exact (hperm.map _).filter _
  · rw [events_after_insertAll chan inc l₁]
    exact List.Pairwise.map _ (fun a b hab => hab)
      (List.sorted_insertionSort rowle _)
  · rw [events_after_insertAll chan inc l₂]
    exact List.Pairwise.map _ (fun a b hab => hab)
      (List.sorted_insertionSort rowle _)
  · rw [events_after_insertAll chan inc l₁, List.map_map, sortKeyD_comp_data]
    rw [List.Perm.nodup_iff
      ((List.perm_insertionSort rowle _).map ChannelEventRow.sortKey)]
    refine List.Nodup.sublist ((List.filter_sublist _).map ChannelEventRow.sortKey) ?_
    rw [mkRows_map_key]
    exact hnd


def c6_chan : ChanKey := ⟨1, "c", "x"⟩

def c6_fields : EventFields :=
  { sender := "s", receiver := "r", settlement_period := 10, «until» := 100,
    value := 50, payment := 5, odd_value := 0 }

def c6_create : ChannelEventInput :=
  { chain_id := 1, contract_id := "c", channel_id := "x", ts := 1,
    block_hash := "h1", block_number := 1, sender := "s",
    event_type := .DidCreateChannel, fields := c6_fields }

def c6_start : ChannelEventInput :=
  { c6_create with
    ts := 2
    block_hash := "h2"
    block_number := 2
    event_type := .DidStartSettle }

def c6_settle : ChannelEventInput :=
  { c6_create with
    ts := 2
    block_hash := "h2"
    block_number := 2
    event_type := .DidSettle }

def c6_deposit : ChannelEventInput :=
  { c6_create with
    ts := 2
    block_hash := "h2"
    block_number := 2
    event_type := .DidDeposit }

def c6_i1 : ChannelIntentInput :=
  { chain_id := 1, contract_id := "c", channel_id := "x", block_number := 2,
    sender := "s", event_type := .DidStartSettle, fields := c6_fields }

def c6_i2 : ChannelIntentInput :=
  { chain_id := 1, contract_id := "c", channel_id := "x", block_number := 3,
    sender := "s", event_type := .DidSettle, fields := c6_fields }

/-- Create event, then the two intents in one order. -/
def c6_dbA : DB :=
  (mcy_insert_channel_intent c6_i2
    (mcy_insert_channel_intent c6_i1
      (mcy_insert_channel_event c6_create emptyDB).1).1).1

/-- Create event, then the same two intents in the other order. -/
def c6_dbB : DB :=
  (mcy_insert_channel_intent c6_i1
    (mcy_insert_channel_intent c6_i2
      (mcy_insert_channel_event c6_create emptyDB).1).1).1

/-- **C6** (amended).  Order-equivalence of insertion holds for chain events
whose canonical sort keys `(block_number, block_hash, ts)` are pairwise
distinct: inserting the same multiset of events in any order yields the same
`mcy_get_channel_status` output up to the insertion-assigned serial ids
(which necessarily differ: they appear in `last_event_id` and in the three
`latest_*` event rows).  With tied sort keys the claim fails: the canonical
`order by` does not discriminate the tied rows, the scan returns them in
insertion order, and the reducer outcome can differ (see the counterexample,
where `DidStartSettle`/`DidSettle` in one block commute into an invalid
channel one way round and a settled channel the other).  Intents cannot be
included in the equivalence at all: `mcy_insert_channel_intent` stamps the
intent row with the server clock `now()` as its `ts`, so the stored multiset
of rows — and, through `until = ts + settlement_period`,
`settlement_started_on` and `settlement_finalized_on`, the returned channel —
already depends on the insertion order of the intents (second half of the
counterexample). -/
theorem C6_order_equivalence (l₁ l₂ : List ChannelEventInput)
    (hperm : List.Perm l₁ l₂)
    (hnd : (l₁.map ChannelEventInput.inputKey).Nodup)
    (chan : ChanKey) (inc : Bool) :
    stripStatus (mcy_get_channel_status (insertAll l₁ emptyDB) chan inc) =
      stripStatus (mcy_get_channel_status (insertAll l₂ emptyDB) chan inc) := by
  have hS := events_map_data_eq chan inc l₁ l₂ hperm hnd
  have hcore := loop_strip_congr (mcy_get_channel_events (insertAll l₁ emptyDB) chan inc)
    (mcy_get_channel_events (insertAll l₂ emptyDB) chan inc) {} {} hS rfl
  simp only [stripRes, Prod.mk.injEq] at hcore
  obtain ⟨h1, h2, h3, h4, h5, h6⟩ := hcore
  simp only [stripStatus, mcy_get_channel_status, mcy_get_channel, mcy_get_channel_core,
    latest_none_after_insertAll, Option.map_none', sqlSub_none, Prod.mk.injEq]
  exact ⟨h1, trivial, trivial, trivial, h4, h2, h3, h5, h6⟩

/-- **C6, counterexample.**  Two insertion-order dependences, one per kind of
row.  Chain events: the same three events for one channel, inserted in two
orders (permutations of each other), give different `get_channel_status`
results — `DidStartSettle` and `DidSettle` share `(block_number, block_hash,
ts)`, so the canonical sort key does not order them and the scan order
(= insertion order) decides which the reducer sees first; one order ends in a
settled channel, the other halts invalid.  Intents: the same create event and
the same two intents, the intents inserted in the two orders, give different
results — already different id-stripped channel records — even though every
canonical sort key is distinct: `mcy_insert_channel_intent` stamps each intent row
with the server clock `now()` as its `ts`, so the stored row itself depends on
when the intent was inserted, and that `ts` flows into the returned channel
through `settlement_started_on`, `until = ts + settlement_period` and
`settlement_finalized_on` (here: `until` is 10 one way round and 11 the
other). -/
theorem C6_counterexample :
    (List.Perm [c6_create, c6_start, c6_settle] [c6_create, c6_settle, c6_start] ∧
      (mcy_get_channel_status (insertAll [c6_create, c6_start, c6_settle] emptyDB)
          c6_chan true).is_invalid = some false ∧
      (mcy_get_channel_status (insertAll [c6_create, c6_settle, c6_start] emptyDB)
          c6_chan true).is_invalid = some true) ∧
    (List.Perm [c6_i1, c6_i2] [c6_i2, c6_i1] ∧
      (stripStatus (mcy_get_channel_status c6_dbA c6_chan true)).1 ≠
        (stripStatus (mcy_get_channel_status c6_dbB c6_chan true)).1 ∧
      (mcy_get_channel_status c6_dbA c6_chan true).channel.map
          (fun c => c.«until») = some (some 10) ∧
      (mcy_get_channel_status c6_dbB c6_chan true).channel.map
          (fun c => c.«until») = some (some 11)) :=
  ⟨⟨by decide, by decide, by decide⟩, by decide, by decide, by decide⟩

/-- Closed instance of the order-equivalence theorem: a create and a deposit
with distinct canonical keys, inserted both ways round. -/
theorem C6_order_equivalence_witness :
    List.Perm [c6_create, c6_deposit] [c6_deposit, c6_create] ∧
    ([c6_create, c6_deposit].map ChannelEventInput.inputKey).Nodup ∧
    stripStatus (mcy_get_channel_status (insertAll [c6_create, c6_deposit] emptyDB)
        c6_chan true) =
      stripStatus (mcy_get_channel_status (insertAll [c6_deposit, c6_create] emptyDB)
        c6_chan true) :=
  ⟨by decide, by decide,
    C6_order_equivalence [c6_create, c6_deposit] [c6_deposit, c6_create]
      (by decide) (by decide) c6_chan true⟩


end PGMachinomy
